import Mathlib

/-!
Verification development for the fflogs log-analytics pipeline.

Shallow embedding of the TypeScript sources:
* `src/amplify/src/fflogs/report.ts` (`getAllEvents`, translate fallback),
  `src/amplify/src/fflogs/client.ts` (`FFLogsGraphQLClient.request`),
* `src/amplify/src/players/playerCasts.ts` / `src/amplify/src/timeline/bossTimeline.ts`
  (`resolveAbility`, `isPlayer`, `isPet`, `isEnemyCandidate`, `inferBossActorId`),
* `src/amplify/src/select/pickFight.ts` (`pickFight` and helpers),
* `src/amplify/src/fflogs/rankings.ts` (`normalizeRanking`, `parseReportCode`,
  `parseFightId`, `metricFields`, `resolveRankingRows`, `normalizeAndSortRankings`),
* `src/amplify/src/cli.ts` (`runPipeline` final ability-name map).

Modelling conventions:
* JavaScript numbers are modelled as `ℚ` (finite doubles without NaN/Infinity and
  without rounding; every modelled value satisfies `Number.isFinite`).
* JavaScript objects with a known field set are modelled as structures whose
  fields are `Option`-typed (a `none` field is an absent/`undefined` property).
* `Map` values used only for lookup are modelled as functions into `Option`.
* Asynchronous network calls are modelled by passing the sequence of upstream
  responses (pages, attempt outcomes, fetched reports) as an explicit argument.
* JavaScript's stable `Array.prototype.sort` is modelled by a stable insertion
  sort; for a consistent comparator the stable sorted result is unique, so any
  stable sort is an exact model.
* Regular expressions over ASCII report codes are modelled by explicit character
  scans (`jsIsAlnum`, `findReportsCode`); case-insensitive matching is modelled
  for ASCII case folding, which covers the alphanumeric report-code alphabet.
-/

/-! ## JavaScript string primitives -/

/-- The character class `[A-Za-z0-9]` used by the report-code regexes. -/
def jsIsAlnum (c : Char) : Bool :=
  (65 ≤ c.toNat && c.toNat ≤ 90) || (97 ≤ c.toNat && c.toNat ≤ 122) ||
    (48 ≤ c.toNat && c.toNat ≤ 57)

/-- Whitespace removed by `String.prototype.trim` (ASCII subset actually
occurring in the modelled payload values). -/
def jsIsWs (c : Char) : Bool :=
  c == ' ' || c == '\t' || c == '\n' || c == '\r'

/-- Model of `String.prototype.trim`. -/
def jsTrim (s : String) : String :=
  ⟨((s.data.dropWhile jsIsWs).reverse.dropWhile jsIsWs).reverse⟩

/-- ASCII lower-casing on code points, for the `i` regex flag. -/
def lowerNat (c : Char) : Nat :=
  if 65 ≤ c.toNat ∧ c.toNat ≤ 90 then c.toNat + 32 else c.toNat

/-- Case-insensitive character comparison (ASCII case folding). -/
def ciCharEq (a b : Char) : Bool :=
  a == b || lowerNat a == lowerNat b

/-- Case-insensitive prefix test on character lists. -/
def ciPrefixEq : List Char → List Char → Bool
  | [], _ => true
  | _ :: _, [] => false
  | p :: ps, c :: cs => ciCharEq p c && ciPrefixEq ps cs

/-- The test `/^[A-Za-z0-9]{8,}$/.test s`: the whole string is alphanumeric and
at least 8 characters long. -/
def strictCodeTest (s : String) : Bool :=
  8 ≤ s.length && s.data.all jsIsAlnum

/-- First match of `/\/reports\/([A-Za-z0-9]+)/i`: scan for a case-insensitive
occurrence of `/reports/` followed by at least one alphanumeric character and
return the maximal alphanumeric run (the capture group). Like the regex engine,
an occurrence followed by a non-alphanumeric character is skipped and the scan
continues at the next position. -/
def findReportsCode : List Char → Option (List Char)
  | [] => none
  | c :: rest =>
    if ciPrefixEq "/reports/".data (c :: rest) then
      let run := ((c :: rest).drop 9).takeWhile jsIsAlnum
      if run.isEmpty then findReportsCode rest else some run
    else
      findReportsCode rest

/-- Model of `String.prototype.includes` on character lists. -/
def containsSub (hay needle : List Char) : Bool :=
  match hay with
  | [] => needle.isEmpty
  | _ :: t => needle.isPrefixOf hay || containsSub t needle

/-! ## Core data model (`src/amplify/src/fflogs/types.ts`) -/
/-- Model of `AbilityRef`. -/
structure AbilityRef where
  gameID : Option ℚ := none
  guid : Option ℚ := none
  name : Option String := none
deriving DecidableEq

/-- Model of `CastEvent`. -/
structure CastEvent where
  timestamp : ℚ := 0
  type : String := "cast"
  sourceID : Option ℚ := none
  targetID : Option ℚ := none
  abilityGameID : Option ℚ := none
  ability : Option AbilityRef := none
deriving DecidableEq

/-- Model of `Actor`. -/
structure Actor where
  id : ℚ
  gameID : ℚ := 0
  name : String := ""
  type : String
  subType : Option String := none
  petOwner : Option ℚ := none
deriving DecidableEq

/-- Model of `ActorMap`: the two lookup maps built by `getReportActorMap`, modelled as
lookup functions (the maps are only read via `.get`). -/
structure ActorMap where
  byId : ℚ → Option Actor
  abilityByGameId : ℚ → Option String

/-- Model of `Fight`. -/
structure Fight where
  id : ℚ
  encounterID : ℚ
  name : String
  kill : Bool
  startTime : ℚ
  endTime : ℚ
  boss : Option ℚ := none
  difficulty : Option ℚ := none
deriving DecidableEq

/-- Model of `EventsPage`: one page of the paginated events query. The JavaScript field
`nextPageTimestamp : number | null` is `Option ℚ`; recall that `null` and the
number `0` are both falsy. -/
structure EventsPage where
  data : List CastEvent
  nextPageTimestamp : Option ℚ
deriving DecidableEq

/-! ## GraphQL client retry loop (`client.ts`, `FFLogsGraphQLClient.request`)

The loop issues attempt 1, 2, … . Each attempt either throws a transport error
before a response arrives or yields an HTTP response. All failure paths inside
the `try` block (non-retryable non-2xx status, GraphQL error array, missing
`data`) throw and are caught by the surrounding `catch`, which retries while
`attempt ≤ maxRetries` and rethrows afterwards. A retryable status with
`attempt ≤ maxRetries` retries without throwing. -/
/-- The parsed HTTP outcome of one attempt. `errors`/`data?` model the decoded
GraphQL body of a 2xx response; `bodyText` models `response.text()` used for
non-2xx errors. -/
structure GqlHttpResponse (α : Type) where
  status : Nat
  statusText : String := ""
  bodyText : String := ""
  errors : List String := []
  data? : Option α := none
deriving DecidableEq

/-- One attempt of the request loop: a transport exception or an HTTP response. -/
inductive GqlAttempt (α : Type) where
  | transportError (msg : String)
  | response (r : GqlHttpResponse α)
deriving DecidableEq

/-- Model of `RETRYABLE_STATUS = new Set([429, 500, 502, 503, 504])`. -/
def retryableStatus (s : Nat) : Bool :=
  s = 429 || s = 500 || s = 502 || s = 503 || s = 504

/-- Model of `Response.ok`: status in the inclusive range 200–299. -/
def responseOk (s : Nat) : Bool :=
  200 ≤ s && s ≤ 299

/-- Result of the `try` block body for a single attempt. -/
inductive AttemptStep (α : Type) where
  | success (d : α)
  | failure (msg : String)
  | retryStatus
deriving DecidableEq

/-- The body of the `try` block for one attempt (with its 1-based index). -/
def attemptStep {α : Type} (maxRetries attempt : Nat) : GqlAttempt α → AttemptStep α
  | .transportError m => .failure m
  | .response r =>
    if retryableStatus r.status && attempt ≤ maxRetries then
      .retryStatus
    else if !responseOk r.status then
      .failure ("GraphQL request failed: " ++ toString r.status ++ " " ++ r.statusText
        ++ " " ++ r.bodyText)
    else if r.errors ≠ [] then
      .failure ("GraphQL errors: " ++ String.intercalate " | " r.errors)
    else
      match r.data? with
      | some d => .success d
      | none => .failure "GraphQL response returned no data."

instance {ε α : Type} [DecidableEq ε] [DecidableEq α] :
    DecidableEq (Except ε α) := fun x y =>
  match x, y with
  | .ok a, .ok b => decidable_of_iff (a = b) (by simp)
  | .error e, .error f => decidable_of_iff (e = f) (by simp)
  | .ok _, .error _ => isFalse (fun h => Except.noConfusion h)
  | .error _, .ok _ => isFalse (fun h => Except.noConfusion h)

/-- Observable outcome of the `request` loop: the returned value or thrown
error, the index of the last attempt made, and the sequence of backoff sleeps
(in milliseconds) performed between attempts. -/
structure RequestTrace (α : Type) where
  result : Except String α
  lastAttempt : Nat
  sleeps : List Nat
deriving DecidableEq

/-- Model of `sleep(250 * 2 ** (attempt - 1))` (milliseconds). -/
def backoffMs (attempt : Nat) : Nat := 250 * 2 ^ (attempt - 1)

/-- The retry loop from attempt number `attempt` on, with explicit fuel. The
loop makes at most `maxRetries + 1` attempts (a failure at
`attempt > maxRetries` rethrows, and a retryable status only loops while
`attempt ≤ maxRetries`), so fuel `maxRetries + 1` from attempt 1 never runs
out; the fuel-0 branch is unreachable. Both retry paths (retryable status and
caught exception) sleep `backoffMs attempt` before the next attempt. -/
def requestAux {α : Type} (attempts : Nat → GqlAttempt α) (maxRetries : Nat) :
    Nat → Nat → RequestTrace α
  | 0, attempt => ⟨.error "unreachable: out of fuel", attempt, []⟩
  | fuel + 1, attempt =>
    match attemptStep maxRetries attempt (attempts attempt) with
    | .success d => ⟨.ok d, attempt, []⟩
    | .retryStatus =>
      let t := requestAux attempts maxRetries fuel (attempt + 1)
      ⟨t.result, t.lastAttempt, backoffMs attempt :: t.sleeps⟩
    | .failure m =>
      if attempt > maxRetries then ⟨.error m, attempt, []⟩
      else
        let t := requestAux attempts maxRetries fuel (attempt + 1)
        ⟨t.result, t.lastAttempt, backoffMs attempt :: t.sleeps⟩

/-- Model of `FFLogsGraphQLClient.request`, as a function of the stream of attempt
outcomes (`attempts i` is what the i-th attempt would observe, 1-based).
`maxRetries` is `config.maxRetries ?? DEFAULT_RETRIES` with
`DEFAULT_RETRIES = 4`. -/
def gqlRequest {α : Type} (attempts : Nat → GqlAttempt α) (maxRetries : Nat) :
    RequestTrace α :=
  requestAux attempts maxRetries (maxRetries + 1) 1

/-- The failure message an attempt outcome produces independently of the
attempt counter (i.e. for outcomes whose HTTP status is not retryable):
thrown transport errors, non-2xx statuses with the body embedded, GraphQL
error arrays with the joined messages, and missing `data`. -/
def stepFailMsg {α : Type} : GqlAttempt α → Option String
  | .transportError m => some m
  | .response r =>
    if retryableStatus r.status then none
    else if !responseOk r.status then
      some ("GraphQL request failed: " ++ toString r.status ++ " " ++ r.statusText
        ++ " " ++ r.bodyText)
    else if r.errors ≠ [] then
      some ("GraphQL errors: " ++ String.intercalate " | " r.errors)
    else
      match r.data? with
      | some _ => none
      | none => some "GraphQL response returned no data."

/-! ## Event pagination (`report.ts`, `getAllEvents`)

The upstream is modelled as the finite sequence of pages it returns, consumed
in order (one request per page). The loop starts the cursor at
`params.startTime`, appends every returned page's `data`, and stops when
`!events.nextPageTimestamp || events.nextPageTimestamp <= cursor` (recall that
`!t` is true for `null` and for `0`). `none` as a result means the model ran
out of supplied pages while the code would have issued another request. -/
/-- Model of `getAllEvents` over a supplied finite page sequence. -/
def getAllEvents (pages : List EventsPage) (cursor : ℚ) : Option (List CastEvent) :=
  match pages with
  | [] => none
  | p :: rest =>
    match p.nextPageTimestamp with
    | none => some p.data
    | some t =>
      if t = 0 ∨ t ≤ cursor then some p.data
      else (getAllEvents rest t).map (p.data ++ ·)

/-- The claim's continuation chain: every page except the last carries a
`nextPageTimestamp` strictly greater than the cursor used to request it, and
the last page's `nextPageTimestamp` is absent or not strictly greater. -/
def pagesChain (cursor : ℚ) : List EventsPage → Bool
  | [] => false
  | [p] =>
    match p.nextPageTimestamp with
    | none => true
    | some t => decide (t ≤ cursor)
  | p :: rest =>
    match p.nextPageTimestamp with
    | none => false
    | some t => decide (cursor < t) && pagesChain t rest

/-! ## Ability-name resolution (`playerCasts.ts` / `bossTimeline.ts`
`resolveAbility`, and the final name map built in `cli.ts` `runPipeline`)

`resolveAbility` appears verbatim in both `playerCasts.ts` and
`bossTimeline.ts`; one definition models both. Number-to-string interpolation
(`` `Ability#${abilityId}` ``) is modelled by `toString`, which agrees with
JavaScript on the integer ability ids that occur. -/
/-- Result record of `resolveAbility`. -/
structure ResolvedAbility where
  abilityName : String
  abilityId : ℚ
deriving DecidableEq

/-- Model of `event.abilityGameID ?? event.ability?.gameID ?? event.ability?.guid ?? -1`. -/
def abilityIdOf (event : CastEvent) : ℚ :=
  ((event.abilityGameID.or
    ((event.ability.bind AbilityRef.gameID).or
      (event.ability.bind AbilityRef.guid)))).getD (-1)

/-- The synthetic placeholder `` `Ability#${abilityId}` ``. -/
def placeholderName (abilityId : ℚ) : String :=
  "Ability#" ++ toString abilityId

/-- Model of `resolveAbility`. When the XIVAPI map is provided it is treated as
authoritative and there is no fallback to FFLogs names (per the source
comment); only without it do the log-service name and the report master data
serve as fallbacks before the placeholder. -/
def resolveAbility (event : CastEvent) (actors : ActorMap)
    (extraAbilityById : Option (ℚ → Option String)) : ResolvedAbility :=
  let abilityId := abilityIdOf event
  match extraAbilityById with
  | some extra =>
    { abilityName := (extra abilityId).getD (placeholderName abilityId), abilityId }
  | none =>
    { abilityName :=
        ((event.ability.bind AbilityRef.name).or
          (actors.abilityByGameId abilityId)).getD (placeholderName abilityId),
      abilityId }

/-- Model of `cli.ts` `runPipeline`: `finalAbilityById` starts as a copy of the XIVAPI
resolution result and then has every override entry written over it, so an
override wins over a resolved name. -/
def finalAbilityById (xivApiResolved overrides : ℚ → Option String) :
    ℚ → Option String :=
  fun id => (overrides id).or (xivApiResolved id)

/-- The display name `runPipeline` emits for an event (both the boss timeline
and the player casts pass `finalAbilityById` to `resolveAbility`). -/
def pipelineDisplayName (event : CastEvent) (actors : ActorMap)
    (xivApiResolved overrides : ℚ → Option String) : String :=
  (resolveAbility event actors (some (finalAbilityById xivApiResolved overrides))).abilityName

/-! ## Stable sort (model of `Array.prototype.sort`)

JavaScript's sort is stable; for a consistent comparator the stable sorted
permutation is unique, so a stable insertion sort is an exact model. -/
/-- Insert `x` before the first element `y` with `le x y` (stable insertion). -/
def insertSorted {α : Type} (le : α → α → Bool) (x : α) : List α → List α
  | [] => [x]
  | y :: ys => if le x y then x :: y :: ys else y :: insertSorted le x ys

/-- Stable insertion sort. -/
def stableSort {α : Type} (le : α → α → Bool) : List α → List α
  | [] => []
  | x :: xs => insertSorted le x (stableSort le xs)

/-! ## Fight selection (`select/pickFight.ts`) -/
/-- Model of `PickFightOptions`. -/
structure PickFightOptions where
  strategy : String
  onlyKill : Bool
  difficulty : Option ℚ := none
  reportCode : String
  debugFightID : Option ℚ := none

/-- Model of `SelectedFightMeta`. -/
structure SelectedFightMeta where
  reportCode : String
  fightID : ℚ
  encounterID : ℚ
  name : String
  startTime : ℚ
  endTime : ℚ
  durationMs : ℚ
  difficulty : Option ℚ
  kill : Bool
  boss : Option ℚ
  reason : String
deriving DecidableEq

/-- Model of `duration(fight)`. -/
def duration (f : Fight) : ℚ := f.endTime - f.startTime

/-- Model of `withDifficultyPriority`. -/
def withDifficultyPriority (fights : List Fight) (difficulty : Option ℚ) :
    List Fight :=
  match difficulty with
  | none => fights
  | some d =>
    let preferred := fights.filter (fun f => f.difficulty == some d)
    if 0 < preferred.length then preferred else fights

/-- Model of `parseByBoss`: `Number(strategy.replace('byBoss:', ''))`, modelled for
integer suffixes (`Number('')` is `0`; a non-numeric suffix is `NaN` and
yields `null`). -/
def parseByBoss (strategy : String) : Option ℚ :=
  if "byBoss:".data.isPrefixOf strategy.data then
    let suffix : String := ⟨strategy.data.drop 7⟩
    if suffix = "" then some 0 else suffix.toInt?.map (fun n => (n : ℚ))
  else none

/-- Model of `toSelectedFight`. -/
def toSelectedFight (reportCode : String) (fight : Fight) (reason : String) :
    SelectedFightMeta :=
  { reportCode
    fightID := fight.id
    encounterID := fight.encounterID
    name := fight.name
    startTime := fight.startTime
    endTime := fight.endTime
    durationMs := duration fight
    difficulty := fight.difficulty
    kill := fight.kill
    boss := fight.boss
    reason }

/-- Model of `Number(b)` on booleans. -/
def boolNum (b : Bool) : ℚ := if b then 1 else 0

/-- The composite comparator of strategy `best` (negative means `a` ranks
before `b`): kill status descending, then difficulty descending, then duration
descending, then start time descending. -/
def bestCmp (a b : Fight) : ℚ :=
  let killScore := boolNum b.kill - boolNum a.kill
  if killScore ≠ 0 then killScore
  else
    let diffScore := b.difficulty.getD 0 - a.difficulty.getD 0
    if diffScore ≠ 0 then diffScore
    else
      let durScore := duration b - duration a
      if durScore ≠ 0 then durScore
      else b.startTime - a.startTime

/-- Holds when `a` sorts no later than `b` under the `best` comparator. -/
def bestFightLe (a b : Fight) : Bool := decide (bestCmp a b ≤ 0)

/-- Comparator `(a, b) => a.startTime - b.startTime` (ascending). -/
def startLe (a b : Fight) : Bool := decide (a.startTime ≤ b.startTime)

/-- Comparator `(a, b) => duration(b) - duration(a)` (descending). -/
def durGe (a b : Fight) : Bool := decide (duration b ≤ duration a)

/-- Step 2 narrowing: if `onlyKill` is set, narrow to kills unless that would
empty the candidate set. -/
def killNarrow (candidates : List Fight) : List Fight :=
  let kills := candidates.filter (·.kill)
  if 0 < kills.length then kills else candidates

/-- Step 2 of `pickFight`: the candidate list after optional kill narrowing. -/
def baseCandidates (fights : List Fight) (options : PickFightOptions) : List Fight :=
  if options.onlyKill then killNarrow fights else fights

/-- Steps 2–4 of `pickFight` continued: `byBoss` narrowing (which can fail)
and difficulty priority over the kill-narrowed candidates. -/
def candidatesAfterNarrow (fights : List Fight) (options : PickFightOptions) :
    Except String (List Fight) :=
  let candidates := baseCandidates fights options
  match parseByBoss options.strategy with
  | some b =>
    let bossFiltered := candidates.filter (fun f => f.boss == some b || f.encounterID == b)
    if bossFiltered.isEmpty then
      .error ("No fights matched strategy byBoss:" ++ toString b ++ ".")
    else .ok (withDifficultyPriority bossFiltered options.difficulty)
  | none => .ok (withDifficultyPriority candidates options.difficulty)

/-- Step 5 of `pickFight`: the strategy dispatch over the narrowed candidates.
The `none` branches of `longest`/`best` model indexing `[0]` into an empty
array; they are unreachable because every caller passes a nonempty candidate
list. -/
def pickFightStrategy (candidates : List Fight) (options : PickFightOptions) :
    Except String SelectedFightMeta :=
  if options.strategy = "lastKill" then
    match (stableSort startLe (candidates.filter (·.kill))).getLast? with
    | none => .error "No kill fights available for strategy=lastKill."
    | some f => .ok (toSelectedFight options.reportCode f "strategy=lastKill")
  else if options.strategy = "firstKill" then
    match (stableSort startLe (candidates.filter (·.kill))).head? with
    | none => .error "No kill fights available for strategy=firstKill."
    | some f => .ok (toSelectedFight options.reportCode f "strategy=firstKill")
  else if options.strategy = "longest" then
    match (stableSort durGe candidates).head? with
    | none => .error "unreachable: empty candidates"
    | some f => .ok (toSelectedFight options.reportCode f "strategy=longest")
  else if options.strategy = "best" || (parseByBoss options.strategy).isSome then
    match (stableSort bestFightLe candidates).head? with
    | none => .error "unreachable: empty candidates"
    | some f =>
      .ok (toSelectedFight options.reportCode f ("strategy=" ++ options.strategy))
  else .error ("Unsupported strategy: " ++ options.strategy)

/-- Model of `pickFight`. -/
def pickFight (fights : List Fight) (options : PickFightOptions) :
    Except String SelectedFightMeta :=
  if fights.length = 0 then .error "No fights in report."
  else
    match options.debugFightID with
    | some dbg =>
      match fights.find? (fun f => f.id == dbg) with
      | none => .error "--fight-id not found in report fights."
      | some direct =>
        .ok (toSelectedFight options.reportCode direct "debug override (--fight-id)")
    | none =>
      match candidatesAfterNarrow fights options with
      | .error e => .error e
      | .ok candidates => pickFightStrategy candidates options

/-! ## Boss inference (`timeline/bossTimeline.ts`) -/
/-- Model of `isPlayer`. -/
def isPlayer (actor : Option Actor) : Bool :=
  match actor with
  | some a => a.type == "Player"
  | none => false

/-- Model of `isPet`. -/
def isPet (actor : Option Actor) : Bool :=
  match actor with
  | none => false
  | some a => a.type == "Pet" || a.petOwner ≠ none

/-- Model of `isEnemyCandidate`: an absent actor (`undefined` lookup) counts as an
enemy candidate. -/
def isEnemyCandidate (actor : Option Actor) : Bool :=
  match actor with
  | none => true
  | some a => !(isPlayer (some a) || isPet (some a))

/-- Model of `counts.set(id, (counts.get(id) ?? 0) + 1)` on a JavaScript `Map`,
preserving insertion order (an existing key keeps its position, a new key is
appended). -/
def bumpCount (acc : List (ℚ × Nat)) (id : ℚ) : List (ℚ × Nat) :=
  match acc with
  | [] => [(id, 1)]
  | (k, c) :: rest => if k = id then (k, c + 1) :: rest else (k, c) :: bumpCount rest id

/-- One iteration of the counting loop of `inferBossActorId`: skip events
without a source, skip non-enemy-candidate sources, bump the counter
otherwise. -/
def countStep (actors : ActorMap) (acc : List (ℚ × Nat)) (event : CastEvent) :
    List (ℚ × Nat) :=
  match event.sourceID with
  | none => acc
  | some s => if isEnemyCandidate (actors.byId s) then bumpCount acc s else acc

/-- The per-actor event counts accumulated by `inferBossActorId`, in map
insertion order. -/
def countsFold (events : List CastEvent) (actors : ActorMap) : List (ℚ × Nat) :=
  events.foldl (countStep actors) []

/-- One iteration of the `best` selection loop: keep the entry with the
strictly greater count (ties keep the earlier entry). -/
def pickStep (best : Option (ℚ × Nat)) (entry : ℚ × Nat) : Option (ℚ × Nat) :=
  match best with
  | none => some entry
  | some b => if entry.2 > b.2 then some entry else best

/-- The `best` selection loop over the counts map entries. -/
def pickMaxCount (counts : List (ℚ × Nat)) : Option (ℚ × Nat) :=
  counts.foldl pickStep none

/-- Model of `inferBossActorId`. -/
def inferBossActorId (events : List CastEvent) (actors : ActorMap) : Option ℚ :=
  (pickMaxCount (countsFold events actors)).map (·.1)

/-- The number of events `inferBossActorId` counts for a given actor id. -/
def enemyEventCount (events : List CastEvent) (actors : ActorMap) (id : ℚ) : Nat :=
  (events.filter (fun e => e.sourceID == some id && isEnemyCandidate (actors.byId id))).length

/-! ## Rankings row normalization (`fflogs/rankings.ts`)

Raw ranking rows are dynamic JSON objects; they are modelled as a structure
over the exact set of property names the normalization code reads, with
`Option` fields for absent properties. Restrictions of the model (each noted
at the definition it concerns): property values are well-typed (the
numeric-string branches of `pickNumber`/`parseFightId`/`pickBoolean`, and the
`JSON.parse` branch of `parseBracketData`, are outside the model's domain);
`readPathCI`'s case-insensitive lookup means `rDPS`/`rdps` denote one field. -/
/-- The nested `report` object (`code`/`reportCode`/`id`/`reportID` read as
strings; a non-string value behaves as absent in the modelled rows). -/
structure RawReport where
  code : Option String := none
  reportCode : Option String := none
  id : Option String := none
  reportID : Option String := none
deriving DecidableEq

/-- Model of `raw.report`: a nested object or a plain string. -/
inductive ReportField where
  | obj (r : RawReport)
  | str (s : String)
deriving DecidableEq

/-- The `rDPS` value inside `bracketData`: a number or an object with
`max`/`median`/`avg`. -/
inductive RdpsField where
  | num (v : ℚ)
  | obj (max median avg : Option ℚ)
deriving DecidableEq

/-- The `duration` value inside `bracketData`: a number or an object with
`min`/`fastest`. -/
inductive DurationField where
  | num (v : ℚ)
  | obj (min fastest : Option ℚ)
deriving DecidableEq

/-- The decoded `bracketData` object (the string-encoded `JSON.parse` branch
of `parseBracketData` is outside the model's domain). -/
structure BracketData where
  rankPercent : Option ℚ := none
  percentile : Option ℚ := none
  bestPercent : Option ℚ := none
  historicalPercent : Option ℚ := none
  rdps : Option RdpsField := none
  max : Option ℚ := none
  kill : Option Bool := none
  isKill : Option Bool := none
  success : Option Bool := none
  fastest : Option ℚ := none
  duration : Option DurationField := none
  minDuration : Option ℚ := none
  median : Option ℚ := none
deriving DecidableEq

/-- Model of `raw.character.server.region`. -/
structure RawRegion where
  slug : Option String := none
deriving DecidableEq

/-- Model of `raw.character.server`. -/
structure RawServer where
  name : Option String := none
  region : Option RawRegion := none
deriving DecidableEq

/-- Model of `raw.character`. -/
structure RawCharacter where
  name : Option String := none
  server : Option RawServer := none
  classID : Option Int := none
  spec : Option String := none
deriving DecidableEq

/-- A raw ranking row: the property names read by `normalizeRanking`,
`metricFields`, `extractRankingsRows` and the unresolved-row repair.
`classField` models the JavaScript property named `class`. -/
structure RawRow where
  rank : Option ℚ := none
  amount : Option ℚ := none
  report : Option ReportField := none
  reportCode : Option String := none
  code : Option String := none
  reportURL : Option String := none
  reportUrl : Option String := none
  url : Option String := none
  fightID : Option ℚ := none
  fightId : Option ℚ := none
  fight : Option ℚ := none
  encounterFightID : Option ℚ := none
  encounterFightId : Option ℚ := none
  rankPercent : Option ℚ := none
  percentile : Option ℚ := none
  bestPercent : Option ℚ := none
  rdps : Option ℚ := none
  fastest : Option ℚ := none
  duration : Option ℚ := none
  medianRdps : Option ℚ := none
  median : Option ℚ := none
  kill : Option Bool := none
  isKill : Option Bool := none
  success : Option Bool := none
  bracketData : Option BracketData := none
  startTime : Option ℚ := none
  character : Option RawCharacter := none
  name : Option String := none
  server : Option String := none
  classField : Option String := none
  spec : Option String := none
deriving DecidableEq

/-- Model of `RankingEntry` (`types.ts`); `kill` is always a boolean in produced
entries because `metricFields` defaults it with `?? true`. -/
structure RankingEntry where
  rank : ℚ
  amount : ℚ
  reportCode : String
  fightID : ℚ
  bestPercent : Option ℚ := none
  highestRdps : Option ℚ := none
  kill : Bool := true
  fastestSec : Option ℚ := none
  medianRdps : Option ℚ := none
  characterName : Option String := none
  serverName : Option String := none
  region : Option String := none
  className : Option String := none
  specName : Option String := none
deriving DecidableEq

/-- Model of `parseFightId`: `raw?.fightID ?? raw?.fightId ?? raw?.fight ??
raw?.encounterFightID ?? raw?.encounterFightId` (numeric-string values are
outside the model's domain). -/
def parseFightId (raw : RawRow) : Option ℚ :=
  (((raw.fightID.or raw.fightId).or raw.fight).or raw.encounterFightID).or
    raw.encounterFightId

/-- Model of `raw.report?.<field>` when `report` is an object. -/
def reportObjField (raw : RawRow) (f : RawReport → Option String) : Option String :=
  match raw.report with
  | some (.obj r) => f r
  | _ => none

/-- Model of `typeof raw?.report === 'string' ? raw.report : undefined`. -/
def reportStrField (raw : RawRow) : Option String :=
  match raw.report with
  | some (.str s) => some s
  | _ => none

/-- The second half of `parseReportCode`: the `direct` candidate chain, then
trim, then the `/reports/<code>` capture, then the strict 8+-alphanumeric
test. -/
def parseReportCodeDirect (raw : RawRow) : Option String :=
  let direct :=
    ((((((reportObjField raw RawReport.code).or raw.reportCode).or raw.code).or
      (reportObjField raw RawReport.reportCode)).or
      ((reportStrField raw).or raw.reportURL)).or raw.reportUrl).or raw.url
  match direct with
  | none => none
  | some d =>
    let s := jsTrim d
    if s = "" then none
    else
      match findReportsCode s.data with
      | some run => some ⟨run⟩
      | none => if strictCodeTest s then some s else none

/-- Model of `parseReportCode`. -/
def parseReportCode (raw : RawRow) : Option String :=
  match raw.report with
  | some (.obj r) =>
    match ((r.code.or r.reportCode).or r.id).or r.reportID with
    | some nc =>
      if strictCodeTest (jsTrim nc) then some (jsTrim nc) else parseReportCodeDirect raw
    | none => parseReportCodeDirect raw
  | _ => parseReportCodeDirect raw

/-- Model of `toSeconds`: values above 10 000 are treated as milliseconds. -/
def toSeconds (v : Option ℚ) : Option ℚ :=
  v.map (fun x => if x > 10000 then x / 1000 else x)

/-- Result of `metricFields`. -/
structure MetricFields where
  bestPercent : Option ℚ
  highestRdps : Option ℚ
  kill : Bool
  fastestSec : Option ℚ
  medianRdps : Option ℚ
deriving DecidableEq

/-- Model of `pickNumber(bd, ['rankPercent', 'percentile', 'bestPercent',
'historicalPercent'])`. -/
def bdBestPercent (b : BracketData) : Option ℚ :=
  ((b.rankPercent.or b.percentile).or b.bestPercent).or b.historicalPercent

/-- Model of `bd.rDPS.max` (reading `.max` of a numeric `rDPS` is `undefined`). -/
def rdpsMax : Option RdpsField → Option ℚ
  | some (.obj m _ _) => m
  | _ => none

/-- Model of `bd.rDPS` when it is a number (`pickNumber` skips non-number objects). -/
def rdpsNum : Option RdpsField → Option ℚ
  | some (.num v) => some v
  | _ => none

/-- Model of `bd.rDPS.median`. -/
def rdpsMedian : Option RdpsField → Option ℚ
  | some (.obj _ m _) => m
  | _ => none

/-- Model of `bd.rDPS.avg`. -/
def rdpsAvg : Option RdpsField → Option ℚ
  | some (.obj _ _ a) => a
  | _ => none

/-- Model of `pickNumber(bd, ['rDPS.max', 'rdps.max', 'rDPS', 'rdps', 'max'])` (the
case-insensitive lookup collapses the `rDPS`/`rdps` aliases). -/
def bdHighestRdps (b : BracketData) : Option ℚ :=
  (rdpsMax b.rdps).or ((rdpsNum b.rdps).or b.max)

/-- Model of `pickBoolean(bd, ['kill', 'isKill', 'success'])`. -/
def bdKill (b : BracketData) : Option Bool :=
  (b.kill.or b.isKill).or b.success

/-- Model of `bd.duration.min`. -/
def durMin : Option DurationField → Option ℚ
  | some (.obj m _) => m
  | _ => none

/-- Model of `bd.duration.fastest`. -/
def durFastest : Option DurationField → Option ℚ
  | some (.obj _ f) => f
  | _ => none

/-- Model of `pickNumber(bd, ['fastest', 'duration.min', 'duration.fastest',
'minDuration'])`. -/
def bdFastest (b : BracketData) : Option ℚ :=
  ((b.fastest.or (durMin b.duration)).or (durFastest b.duration)).or b.minDuration

/-- Model of `pickNumber(bd, ['rDPS.median', 'rdps.median', 'rDPS.avg', 'rdps.avg',
'median'])`. -/
def bdMedian (b : BracketData) : Option ℚ :=
  ((rdpsMedian b.rdps).or (rdpsAvg b.rdps)).or b.median

/-- Model of `metricFields`. -/
def metricFields (raw : RawRow) : MetricFields :=
  let bd := raw.bracketData
  { bestPercent :=
      ((raw.rankPercent.or raw.percentile).or raw.bestPercent).or (bd.bind bdBestPercent)
    highestRdps := (raw.rdps.or raw.amount).or (bd.bind bdHighestRdps)
    kill := (((raw.kill.or raw.isKill).or raw.success).or (bd.bind bdKill)).getD true
    fastestSec := toSeconds ((raw.fastest.or raw.duration).or (bd.bind bdFastest))
    medianRdps := (raw.medianRdps.or raw.median).or (bd.bind bdMedian) }

/-- Model of `raw.character?.name ?? raw.name`. -/
def rawCharacterName (raw : RawRow) : Option String :=
  (raw.character.bind RawCharacter.name).or raw.name

/-- Model of `raw.character?.server?.name ?? raw.server`. -/
def rawServerName (raw : RawRow) : Option String :=
  (raw.character.bind (fun c => c.server.bind RawServer.name)).or raw.server

/-- Model of `raw.character?.server?.region?.slug`. -/
def rawRegion (raw : RawRow) : Option String :=
  raw.character.bind (fun c => c.server.bind (fun s => s.region.bind RawRegion.slug))

/-- Model of `raw.character?.classID ? String(raw.character.classID) : raw.class ?
String(raw.class) : undefined` (truthiness: the number `0` and the empty
string are falsy). -/
def rawClassName (raw : RawRow) : Option String :=
  let fb :=
    match raw.classField with
    | some s => if s ≠ "" then some s else none
    | none => none
  match raw.character.bind RawCharacter.classID with
  | some cid => if cid ≠ 0 then some (toString cid) else fb
  | none => fb

/-- Model of `raw.character?.spec ? String(raw.character.spec) : raw.spec ?
String(raw.spec) : undefined`. -/
def rawSpecName (raw : RawRow) : Option String :=
  let fb :=
    match raw.spec with
    | some s => if s ≠ "" then some s else none
    | none => none
  match raw.character.bind RawCharacter.spec with
  | some sp => if sp ≠ "" then some sp else fb
  | none => fb

/-- Model of `normalizeRanking` (the source guard is `!reportCode || fightID == null`;
`parseReportCode` never returns the falsy empty string, see
`parseReportCode_ne_empty`). -/
def normalizeRanking (raw : RawRow) : Option RankingEntry :=
  match parseReportCode raw, parseFightId raw with
  | some reportCode, some fightID =>
    let m := metricFields raw
    some
      { rank := raw.rank.getD 0
        amount := raw.amount.getD 0
        reportCode
        fightID
        bestPercent := m.bestPercent
        highestRdps := m.highestRdps
        kill := m.kill
        fastestSec := m.fastestSec
        medianRdps := m.medianRdps
        characterName := rawCharacterName raw
        serverName := rawServerName raw
        region := rawRegion raw
        className := rawClassName raw
        specName := rawSpecName raw }
  | _, _ => none

/-- A produced `RankingEntry`, viewed again as a raw row (the object the
claim's re-normalization feeds back into `normalizeRanking`). Its properties
`rank`, `amount`, `reportCode`, `fightID`, `bestPercent`, `kill` and
`medianRdps` coincide with raw-row property names; its remaining properties
(`highestRdps`, `fastestSec`, `characterName`, `serverName`, `region`,
`className`, `specName`) match none of the names `normalizeRanking` reads,
not even case-insensitively, so they are invisible to it. -/
def entryToRaw (e : RankingEntry) : RawRow :=
  { rank := some e.rank
    amount := some e.amount
    reportCode := some e.reportCode
    fightID := some e.fightID
    bestPercent := e.bestPercent
    medianRdps := e.medianRdps
    kill := some e.kill }

/-- Model of `pickFightIdFromReport`: prefer fights of the requested encounter, then
pick the closest match on start time plus duration deviation (strict `<`
keeps the earliest minimum, matching the `score < bestScore` update). -/
def pickFightIdFromReport (fights : List Fight) (encounterID : ℚ)
    (startTime durationHint : Option ℚ) : Option ℚ :=
  let candidates := fights.filter (fun f => f.encounterID == encounterID)
  let pool := if 0 < candidates.length then candidates else fights
  match pool with
  | [] => none
  | p0 :: rest =>
    match startTime with
    | none => some ((((p0 :: rest).find? (·.kill)).map Fight.id).getD p0.id)
    | some ts =>
      let score := fun (f : Fight) =>
        |f.startTime - ts| +
          (match durationHint with
           | none => 0
           | some td => |f.endTime - f.startTime - td|)
      some ((rest.foldl (fun best f => if score f < best.2 then (f, score f) else best)
        (p0, score p0)).1.id)

/-- The first pass of `resolveRankingRows`: rows that normalize directly
become entries; rows that fail but still expose a report code are queued as
unresolved; rows with neither are dropped. -/
def firstPassEntries (rows : List RawRow) :
    List RankingEntry × List (RawRow × String) :=
  match rows with
  | [] => ([], [])
  | row :: rest =>
    let tailResult := firstPassEntries rest
    match normalizeRanking row with
    | some e => (e :: tailResult.1, tailResult.2)
    | none =>
      match parseReportCode row with
      | none => tailResult
      | some rc => (tailResult.1, (row, rc) :: tailResult.2)

/-- The repair of one unresolved row, given the batch-fetched fight lists
(`cache code = none` models an inaccessible report, which the code ignores). -/
def repairRow (cache : String → Option (List Fight)) (encounterID : ℚ)
    (item : RawRow × String) : Option RankingEntry :=
  match cache item.2 with
  | none => none
  | some fights =>
    let m := metricFields item.1
    match pickFightIdFromReport fights encounterID item.1.startTime item.1.duration with
    | none => none
    | some fid =>
      some
        { rank := item.1.rank.getD 0
          amount := item.1.amount.getD 0
          reportCode := item.2
          fightID := fid
          bestPercent := m.bestPercent
          highestRdps := m.highestRdps
          kill := m.kill
          fastestSec := m.fastestSec
          medianRdps := m.medianRdps
          characterName := rawCharacterName item.1
          serverName := rawServerName item.1
          region := rawRegion item.1
          className := rawClassName item.1
          specName := rawSpecName item.1 }

/-- Model of `resolveRankingRows`, with the concurrent `getReportFights` batch fetch
modelled by the `cache` oracle. -/
def resolveRankingRows (rows : List RawRow) (cache : String → Option (List Fight))
    (encounterID : ℚ) : List RankingEntry :=
  let firstPass := firstPassEntries rows
  firstPass.1 ++ firstPass.2.filterMap (repairRow cache encounterID)

/-- The three-letter job alias table of `matchesJobFilter`. -/
def jobAlias (q : String) : Option String :=
  match q with
  | "pld" => some "paladin"
  | "war" => some "warrior"
  | "drk" => some "darkknight"
  | "gnb" => some "gunbreaker"
  | "whm" => some "whitemage"
  | "sch" => some "scholar"
  | "ast" => some "astrologian"
  | "sge" => some "sage"
  | "mnk" => some "monk"
  | "drg" => some "dragoon"
  | "nin" => some "ninja"
  | "sam" => some "samurai"
  | "rpr" => some "reaper"
  | "vpr" => some "viper"
  | "brd" => some "bard"
  | "mch" => some "machinist"
  | "dnc" => some "dancer"
  | "blm" => some "blackmage"
  | "smn" => some "summoner"
  | "rdm" => some "redmage"
  | "pct" => some "pictomancer"
  | _ => none

/-- The canonical-name → numeric class id table of `matchesJobFilter`. -/
def canonicalToClassId (q : String) : Option String :=
  match q with
  | "paladin" => some "19"
  | "warrior" => some "21"
  | "darkknight" => some "32"
  | "gunbreaker" => some "37"
  | "whitemage" => some "24"
  | "scholar" => some "28"
  | "astrologian" => some "33"
  | "sage" => some "40"
  | "monk" => some "20"
  | "dragoon" => some "22"
  | "ninja" => some "30"
  | "samurai" => some "34"
  | "reaper" => some "39"
  | "viper" => some "41"
  | "bard" => some "23"
  | "machinist" => some "31"
  | "dancer" => some "38"
  | "blackmage" => some "25"
  | "summoner" => some "27"
  | "redmage" => some "35"
  | "pictomancer" => some "42"
  | _ => none

/-- Model of `s.toLowerCase().replace(/[^a-z0-9]/g, '')` (ASCII lower-casing). -/
def normalizeKey (s : String) : String :=
  ⟨(s.data.map Char.toLower).filter
    (fun c => (97 ≤ c.toNat && c.toNat ≤ 122) || (48 ≤ c.toNat && c.toNat ≤ 57))⟩

/-- Model of `matchesJobFilter`. -/
def matchesJobFilter (entry : RankingEntry) (job : Option String) : Bool :=
  let qRaw := normalizeKey (jsTrim (job.getD ""))
  let q := (jobAlias qRaw).getD qRaw
  if q = "" then true
  else
    let c := normalizeKey (entry.className.getD "")
    let s := normalizeKey (entry.specName.getD "")
    c == q || s == q || containsSub c.data q.data || containsSub s.data q.data ||
      (match canonicalToClassId q with
       | some t => c == t
       | none => false)

/-- Model of `scoreForSort` (in the model every value is finite). -/
def scoreForSort (entry : RankingEntry) : ℚ :=
  entry.highestRdps.getD entry.amount

/-- The rankings sort order: rank ascending, then score descending, then best
percent (default −1) descending; `a` no later than `b` iff the comparator is
non-positive. -/
def rankingsLe (a b : RankingEntry) : Bool :=
  if a.rank ≠ b.rank then decide (a.rank < b.rank)
  else if scoreForSort a ≠ scoreForSort b then decide (scoreForSort b < scoreForSort a)
  else if a.bestPercent.getD (-1) ≠ b.bestPercent.getD (-1) then
    decide (b.bestPercent.getD (-1) < a.bestPercent.getD (-1))
  else true

/-- Model of `normalizeAndSortRankings` (the filter argument is
`params.className ?? params.specName`). -/
def normalizeAndSortRankings (entries : List RankingEntry) (job : Option String) :
    List RankingEntry :=
  stableSort rankingsLe (entries.filter (fun e => matchesJobFilter e job))

/-- The rankings list built by every successful return path of `getRankings`:
resolve the collected raw rows, filter/sort, and truncate to `safePageSize`. -/
def rankingsOutput (rows : List RawRow) (cache : String → Option (List Fight))
    (encounterID : ℚ) (job : Option String) (safePageSize : Nat) :
    List RankingEntry :=
  (normalizeAndSortRankings (resolveRankingRows rows cache encounterID) job).take
    safePageSize

/-- A page of sample events for the pagination witness. -/
def c1Ev (n : ℚ) : CastEvent := { timestamp := n }

/-- Two pages: the first advances the cursor to 100, the second carries no
next cursor. -/
def c1Pages : List EventsPage :=
  [⟨[c1Ev 1, c1Ev 2], some 100⟩, ⟨[c1Ev 3], none⟩]

/-- Concrete attempt stream: 429 three times, then 200 with data. -/
def c8Attempts : Nat → GqlAttempt Nat := fun i =>
  if i ≤ 3 then .response { status := 429 }
  else .response { status := 200, data? := some 7 }

/-! ## C3: non-retryable failures are in fact retried (corrected) -/
/-- Every attempt returns HTTP 400 with body `boom`. -/
def c3BadAttempts : Nat → GqlAttempt Nat := fun _ =>
  .response { status := 400, statusText := "Bad Request", bodyText := "boom" }

/-- Every attempt returns HTTP 200 with a GraphQL error array. -/
def c3ErrAttempts : Nat → GqlAttempt Nat := fun _ =>
  .response { status := 200, errors := ["boom"] }

/-! ## C2: ability display-name priority (corrected) -/
/-- An empty actor map for concrete instances. -/
def trivialActors : ActorMap := ⟨fun _ => none, fun _ => none⟩

/-- An event whose log-service payload carries the ability name `Fire`. -/
def c2Event : CastEvent :=
  { abilityGameID := some 42, ability := some { name := some "Fire" } }

/-! ## C9/C10: boss inference -/
/-- Assoc-list lookup mirroring `counts.get(j)` (with default 0). -/
def lookupCount (l : List (ℚ × Nat)) (j : ℚ) : Nat :=
  match l.find? (fun kv => kv.1 == j) with
  | some kv => kv.2
  | none => 0

/-- The key sequence of the counts map. -/
def countKeys (l : List (ℚ × Nat)) : List ℚ := l.map Prod.fst

/-- The events `inferBossActorId` counts at all (any enemy-candidate source). -/
def qualifyingEvents (events : List CastEvent) (actors : ActorMap) : List CastEvent :=
  events.filter (fun e => (e.sourceID.map (fun s => isEnemyCandidate (actors.byId s))).getD false)

/-- NPC actors for the boss-inference instances. -/
def npcActor (n : ℚ) : Actor := { id := n, type := "NPC" }

/-- Actor map with two NPCs (ids 10 and 20). -/
def c9Actors : ActorMap :=
  ⟨fun id => if id = 10 then some (npcActor 10) else
    if id = 20 then some (npcActor 20) else none, fun _ => none⟩

/-- Five events from actor 10 and twelve events from actor 20. -/
def c9Events : List CastEvent :=
  List.replicate 5 { sourceID := some 10 } ++ List.replicate 12 { sourceID := some 20 }

/-- Actor map for C10: a player (id 1), an NPC (id 50), and no entry at all
for id 99. -/
def c10Actors : ActorMap :=
  ⟨fun id => if id = 1 then some { id := 1, type := "Player" } else
    if id = 50 then some (npcActor 50) else none, fun _ => none⟩

/-- Twenty events from the player, three from the unknown id 99, two from the NPC. -/
def c10Events : List CastEvent :=
  List.replicate 20 { sourceID := some 1 } ++
    List.replicate 3 { sourceID := some 99 } ++
    List.replicate 2 { sourceID := some 50 }

/-! ## Structural lemmas for `pickFight` -/
/-- The fight data recoverable from a `SelectedFightMeta` (all comparator
fields are copied verbatim by `toSelectedFight`). -/
def selFightData (sel : SelectedFightMeta) : Fight :=
  { id := sel.fightID
    encounterID := sel.encounterID
    name := sel.name
    kill := sel.kill
    startTime := sel.startTime
    endTime := sel.endTime
    boss := sel.boss
    difficulty := sel.difficulty }

/-- The three fights of the repository's `pickFight` test: id 1 non-kill,
id 2 kill at difficulty 100, id 3 kill at difficulty 101, in increasing
start-time order. -/
def threeFights : List Fight :=
  [{ id := 1, encounterID := 100, name := "Boss A", kill := false,
     startTime := 0, endTime := 120000, difficulty := some 100, boss := some 100 },
   { id := 2, encounterID := 100, name := "Boss A", kill := true,
     startTime := 130000, endTime := 300000, difficulty := some 100, boss := some 100 },
   { id := 3, encounterID := 101, name := "Boss B", kill := true,
     startTime := 310000, endTime := 520000, difficulty := some 101, boss := some 101 }]

/-- Model of `strategy=best, onlyKill=true` options. -/
def bestOpts : PickFightOptions :=
  { strategy := "best", onlyKill := true, reportCode := "ABC123" }

/-- Model of `strategy=lastKill, onlyKill=true` options. -/
def lastKillOpts : PickFightOptions :=
  { strategy := "lastKill", onlyKill := true, reportCode := "ABC123" }

/-- The fight `pickFight` selects from `threeFights` with strategy `best`. -/
def bestSelected : SelectedFightMeta :=
  { reportCode := "ABC123", fightID := 3, encounterID := 101, name := "Boss B",
    startTime := 310000, endTime := 520000, durationMs := 210000,
    difficulty := some 101, kill := true, boss := some 101,
    reason := "strategy=best" }

/-- A raw row (same shape as the C4 fixture) for the C5 witness. -/
def c5Row : RawRow :=
  { report := some (.obj { code := some "abcdefgh" }), fightID := some 1,
    fastest := some 300 }

/-- The entry `normalizeRanking` produces for `c5Row`. -/
def c5Entry : RankingEntry :=
  { rank := 0, amount := 0, reportCode := "abcdefgh", fightID := 1,
    kill := true, fastestSec := some 300 }

/-! ## C4: `normalizeRanking` is not idempotent (corrected) -/
/-- A raw ranking row with a nested report code, a fight id and a `fastest`
clear time. -/
def c4Row : RawRow :=
  { report := some (.obj { code := some "abcdefgh" }), fightID := some 1,
    fastest := some 300 }

/-- The entry `normalizeRanking` produces for `c4Row`. -/
def c4Entry : RankingEntry :=
  { rank := 0, amount := 0, reportCode := "abcdefgh", fightID := 1,
    kill := true, fastestSec := some 300 }

/-! ## Theorems -/

theorem insertSorted_perm {α : Type} (le : α → α → Bool) (x : α) :
    ∀ l : List α, (insertSorted le x l).Perm (x :: l)
  | [] => .refl _
  | y :: ys => by
    unfold insertSorted
    split
    · exact .refl _
    · exact ((insertSorted_perm le x ys).cons y).trans (List.Perm.swap x y ys)

theorem stableSort_perm {α : Type} (le : α → α → Bool) :
    ∀ l : List α, (stableSort le l).Perm l
  | [] => .refl _
  | x :: xs => (insertSorted_perm le x (stableSort le xs)).trans
      ((stableSort_perm le xs).cons x)

theorem mem_stableSort {α : Type} {le : α → α → Bool} {a : α} {l : List α} :
    a ∈ stableSort le l ↔ a ∈ l :=
  (stableSort_perm le l).mem_iff

theorem pairwise_insertSorted {α : Type} {le : α → α → Bool}
    (htrans : ∀ a b c, le a b = true → le b c = true → le a c = true)
    (htotal : ∀ a b, le a b || le b a) (x : α) :
    ∀ {l : List α}, l.Pairwise (fun a b => le a b = true) →
      (insertSorted le x l).Pairwise (fun a b => le a b = true) := by
  intro l
  induction l with
  | nil => intro _; simp [insertSorted]
  | cons y ys ih =>
    intro h
    rw [List.pairwise_cons] at h
    obtain ⟨hy, hys⟩ := h
    unfold insertSorted
    split
    · rename_i hxy
      refine List.Pairwise.cons ?_ (List.Pairwise.cons hy hys)
      intro b hb
      rcases List.mem_cons.mp hb with rfl | hb
      · exact hxy
      · exact htrans x y b hxy (hy b hb)
    · rename_i hxy
      have hyx : le y x = true := by
        have := htotal x y
        simp [Bool.or_eq_true] at this
        rcases this with h1 | h1
        · exact absurd h1 hxy
        · exact h1
      refine List.Pairwise.cons ?_ (ih hys)
      intro b hb
      have hb' : b ∈ x :: ys := (insertSorted_perm le x ys).mem_iff.mp hb
      rcases List.mem_cons.mp hb' with rfl | hb'
      · exact hyx
      · exact hy b hb'

theorem pairwise_stableSort {α : Type} {le : α → α → Bool}
    (htrans : ∀ a b c, le a b = true → le b c = true → le a c = true)
    (htotal : ∀ a b, le a b || le b a) :
    ∀ l : List α, (stableSort le l).Pairwise (fun a b => le a b = true)
  | [] => by simp [stableSort]
  | x :: xs =>
    pairwise_insertSorted htrans htotal x (pairwise_stableSort htrans htotal xs)

/-! ## General helper lemmas -/
theorem mem_of_head?_eq_some {α : Type} {l : List α} {a : α} (h : l.head? = some a) :
    a ∈ l := by
  cases l with
  | nil => simp at h
  | cons x t => simp at h; simp [h]

theorem mem_of_getLast?_eq_some {α : Type} :
    ∀ {l : List α} {a : α}, l.getLast? = some a → a ∈ l
  | [], a => by simp
  | [x], a => by intro h; simp at h; simp [h]
  | x :: y :: t, a => by
    intro h
    rw [List.getLast?_cons_cons] at h
    exact List.mem_cons_of_mem x (mem_of_getLast?_eq_some h)

/-! ## C1: pagination -/
/-- C1: for every finite sequence of event pages, `getAllEvents` terminates
and returns the concatenation of the pages' `data` arrays in page order; it
stops requesting further pages exactly when a page's `nextPageTimestamp` is
absent or not strictly greater than the cursor used to request that page
(first conjunct: a chain of strictly increasing cursors whose last page stops
yields the full concatenation; second conjunct: a stopping first page ends the
loop with only that page's data, regardless of the remaining pages). Start
cursors are nonnegative epoch-relative milliseconds. -/
theorem getAllEvents_cons_continue {p : EventsPage} {rest : List EventsPage}
    {cursor t : ℚ} (hp : p.nextPageTimestamp = some t)
    (h : ¬(t = 0 ∨ t ≤ cursor)) :
    getAllEvents (p :: rest) cursor = (getAllEvents rest t).map (p.data ++ ·) := by
  simp [getAllEvents, hp, h]

theorem C1_pagination :
    (∀ (pages : List EventsPage) (cursor : ℚ), 0 ≤ cursor →
        pagesChain cursor pages = true →
        getAllEvents pages cursor = some (pages.map EventsPage.data).flatten) ∧
    (∀ (p : EventsPage) (rest : List EventsPage) (cursor : ℚ),
        (p.nextPageTimestamp = none ∨ ∃ t, p.nextPageTimestamp = some t ∧ t ≤ cursor) →
        getAllEvents (p :: rest) cursor = some p.data) := by
  constructor
  · intro pages
    induction pages with
    | nil => intro cursor _ h; simp [pagesChain] at h
    | cons p rest ih =>
      intro cursor hc h
      cases rest with
      | nil =>
        cases hp : p.nextPageTimestamp with
        | none => simp [getAllEvents, hp]
        | some t =>
          simp only [pagesChain, hp, decide_eq_true_eq] at h
          simp [getAllEvents, hp, if_pos (Or.inr h)]
      | cons q rest' =>
        cases hp : p.nextPageTimestamp with
        | none => simp [pagesChain, hp] at h
        | some t =>
          simp only [pagesChain, hp, Bool.and_eq_true, decide_eq_true_eq] at h
          obtain ⟨hlt, hchain⟩ := h
          have ht0 : ¬(t = 0 ∨ t ≤ cursor) := by
            push_neg
            constructor
            · intro h0; rw [h0] at hlt; linarith
            · linarith
          have hrec := ih t (by linarith) hchain
          rw [getAllEvents_cons_continue hp ht0, hrec]
          simp
  · intro p rest cursor h
    rcases h with hnone | ⟨t, ht, hle⟩
    · simp [getAllEvents, hnone]
    · simp [getAllEvents, ht, if_pos (Or.inr hle)]

theorem C1_pagination_witness :
    ((0 : ℚ) ≤ 0 ∧ pagesChain 0 c1Pages = true ∧
      getAllEvents c1Pages 0 = some (c1Pages.map EventsPage.data).flatten) ∧
    getAllEvents [⟨[c1Ev 4], some 50⟩, ⟨[c1Ev 5], some 200⟩] 50 = some [c1Ev 4] :=
  ⟨⟨le_refl 0, by decide, C1_pagination.1 c1Pages 0 (le_refl 0) (by decide)⟩,
    C1_pagination.2 ⟨[c1Ev 4], some 50⟩ [⟨[c1Ev 5], some 200⟩] 50
      (Or.inr ⟨50, rfl, le_refl 50⟩)⟩

/-! ## C8: retry with exponential backoff, then success -/
/-- C8: with the default `maxRetries = 4`, a request whose first three
attempts see a retryable HTTP status and whose fourth attempt returns 200 with
valid data resolves successfully on attempt 4 without surfacing an error,
sleeping `250 · 2^(attempt−1)` ms after each failed attempt. -/
theorem C8_retry_then_success {α : Type} (attempts : Nat → GqlAttempt α)
    (r1 r2 r3 r4 : GqlHttpResponse α) (d : α)
    (h1 : attempts 1 = .response r1) (hs1 : retryableStatus r1.status = true)
    (h2 : attempts 2 = .response r2) (hs2 : retryableStatus r2.status = true)
    (h3 : attempts 3 = .response r3) (hs3 : retryableStatus r3.status = true)
    (h4 : attempts 4 = .response r4) (hst4 : r4.status = 200)
    (herr : r4.errors = []) (hd : r4.data? = some d) :
    gqlRequest attempts 4 = ⟨.ok d, 4, [backoffMs 1, backoffMs 2, backoffMs 3]⟩ := by
  have hr4 : retryableStatus r4.status = false := by rw [hst4]; decide
  have ho4 : responseOk r4.status = true := by rw [hst4]; decide
  simp [gqlRequest, requestAux, attemptStep, h1, h2, h3, h4, hs1, hs2, hs3, hr4, ho4,
    herr, hd]

theorem C8_retry_then_success_witness :
    gqlRequest c8Attempts 4 = ⟨.ok 7, 4, [250, 500, 1000]⟩ := by
  have h := C8_retry_then_success c8Attempts
    { status := 429 } { status := 429 } { status := 429 }
    { status := 200, data? := some 7 } 7 rfl rfl rfl rfl rfl rfl rfl rfl rfl rfl
  rw [h]
  norm_num [backoffMs]

/-- C3 counterexample: with the default `maxRetries = 4`, a request whose
response status is a non-retryable 400 does not fail immediately — the thrown
error is caught and retried; the loop only propagates it on attempt 5 (the
body is embedded in the final error). Likewise a 200 response carrying a
GraphQL error array is retried and propagated on attempt 5, not at once. -/
theorem C3_counterexample :
    (gqlRequest c3BadAttempts 4).lastAttempt = 5 ∧
    (gqlRequest c3BadAttempts 4).lastAttempt ≠ 1 ∧
    (gqlRequest c3BadAttempts 4).result =
      .error "GraphQL request failed: 400 Bad Request boom" ∧
    (gqlRequest c3BadAttempts 4).sleeps = [250, 500, 1000, 2000] ∧
    (gqlRequest c3ErrAttempts 4).lastAttempt = 5 ∧
    (gqlRequest c3ErrAttempts 4).result = .error "GraphQL errors: boom" := by
  have hbad : gqlRequest c3BadAttempts 4 =
      ⟨.error "GraphQL request failed: 400 Bad Request boom", 5,
        [250, 500, 1000, 2000]⟩ := by decide
  have herr : gqlRequest c3ErrAttempts 4 =
      ⟨.error "GraphQL errors: boom", 5, [250, 500, 1000, 2000]⟩ := by decide
  exact ⟨by rw [hbad], by rw [hbad]; decide, by rw [hbad], by rw [hbad],
    by rw [herr], by rw [herr]⟩

theorem stepFailMsg_failure {α : Type} {a : GqlAttempt α} {m : String}
    (h : stepFailMsg a = some m) (maxRetries attempt : Nat) :
    attemptStep maxRetries attempt a = .failure m := by
  cases a with
  | transportError msg => simp [stepFailMsg] at h; simp [attemptStep, h]
  | response r =>
    by_cases hr : retryableStatus r.status = true
    · simp [stepFailMsg, hr] at h
    · rw [Bool.not_eq_true] at hr
      simp only [stepFailMsg, hr, Bool.false_eq_true, if_false] at h
      simp only [attemptStep, hr, Bool.false_and, Bool.false_eq_true, if_false]
      split at h
      · split
        · simp_all
        · simp_all
      · split at h
        · simp_all
        · split at h <;> simp_all

theorem requestAux_all_fail {α : Type} (attempts : Nat → GqlAttempt α)
    (maxRetries : Nat) (msg : Nat → String) :
    ∀ (fuel attempt : Nat), attempt + fuel = maxRetries + 2 → 1 ≤ attempt →
      attempt ≤ maxRetries + 1 →
      (∀ i, attempt ≤ i → i ≤ maxRetries + 1 → stepFailMsg (attempts i) = some (msg i)) →
      (requestAux attempts maxRetries fuel attempt).result = .error (msg (maxRetries + 1)) ∧
      (requestAux attempts maxRetries fuel attempt).lastAttempt = maxRetries + 1
  | 0, attempt => by intro hsum _ hle _; omega
  | fuel + 1, attempt => by
    intro hsum h1 hle hmsg
    have hstep := stepFailMsg_failure (hmsg attempt le_rfl hle) maxRetries attempt
    by_cases hgt : attempt > maxRetries
    · have heq : attempt = maxRetries + 1 := by omega
      subst heq
      simp [requestAux, hstep, Nat.lt_succ_self]
    · have hrec := requestAux_all_fail attempts maxRetries msg fuel (attempt + 1)
        (by omega) (by omega) (by omega)
        (fun i hi hi' => hmsg i (by omega) hi')
      simp [requestAux, hstep, if_neg hgt, hrec.1, hrec.2]

/-- C3 amended: a non-retryable non-2xx status and a GraphQL-level error array
do not fail immediately — each such failure is thrown inside the try block,
caught by the retry envelope, and retried like a transport error; only when
the attempt counter exceeds the configured maximum does the request propagate
the error (with the response body / the joined error messages embedded), on
attempt `maxRetries + 1`. -/
theorem C3_failures_retried {α : Type} (attempts : Nat → GqlAttempt α)
    (maxRetries : Nat) (msg : Nat → String)
    (h : ∀ i, 1 ≤ i → i ≤ maxRetries + 1 → stepFailMsg (attempts i) = some (msg i)) :
    (gqlRequest attempts maxRetries).result = .error (msg (maxRetries + 1)) ∧
    (gqlRequest attempts maxRetries).lastAttempt = maxRetries + 1 :=
  requestAux_all_fail attempts maxRetries msg (maxRetries + 1) 1 (by omega) le_rfl
    (by omega) (fun i hi hi' => h i hi hi')

theorem C3_failures_retried_witness :
    (gqlRequest c3BadAttempts 4).result =
      .error "GraphQL request failed: 400 Bad Request boom" ∧
    (gqlRequest c3BadAttempts 4).lastAttempt = 4 + 1 :=
  C3_failures_retried c3BadAttempts 4
    (fun _ => "GraphQL request failed: 400 Bad Request boom")
    (fun _ _ _ => rfl)

/-- C2 counterexample: `runPipeline` always passes the XIVAPI+overrides map to
`resolveAbility`, and with that map present the log-service name is never
consulted — an id with no override and no external resolution renders as the
placeholder even though the log service supplied `Fire`. -/
theorem C2_counterexample :
    pipelineDisplayName c2Event trivialActors (fun _ => none) (fun _ => none) =
      "Ability#42" ∧
    c2Event.ability.bind AbilityRef.name = some "Fire" ∧
    ("Ability#42" : String) ≠ "Fire" := by
  refine ⟨rfl, rfl, by decide⟩

/-- C2 amended: the display names emitted by `runPipeline` follow the priority
manual override, else XIVAPI-resolved name, else the synthetic placeholder
`Ability#<id>` — the log service's bundled name does not participate, because
the pipeline always supplies the resolved map and `resolveAbility` treats it
as authoritative. The log-service name (then the report master data, then the
placeholder) is used only in the map-less variant of `resolveAbility`. -/
theorem C2_name_priority :
    (∀ (event : CastEvent) (actors : ActorMap) (xiv ov : ℚ → Option String),
        pipelineDisplayName event actors xiv ov =
          match ov (abilityIdOf event) with
          | some n => n
          | none =>
            match xiv (abilityIdOf event) with
            | some n => n
            | none => placeholderName (abilityIdOf event)) ∧
    (∀ (event : CastEvent) (actors : ActorMap) (n : String),
        event.ability.bind AbilityRef.name = some n →
        (resolveAbility event actors none).abilityName = n) := by
  constructor
  · intro event actors xiv ov
    cases hov : ov (abilityIdOf event) with
    | none =>
      cases hxiv : xiv (abilityIdOf event) with
      | none => simp [pipelineDisplayName, resolveAbility, finalAbilityById, hov, hxiv]
      | some n => simp [pipelineDisplayName, resolveAbility, finalAbilityById, hov, hxiv]
    | some n => simp [pipelineDisplayName, resolveAbility, finalAbilityById, hov]
  · intro event actors n h
    simp [resolveAbility, h]

theorem C2_name_priority_witness :
    (resolveAbility c2Event trivialActors none).abilityName = "Fire" :=
  C2_name_priority.2 c2Event trivialActors "Fire" rfl

theorem countKeys_nil : countKeys [] = [] := rfl

theorem countKeys_cons (k : ℚ) (c : Nat) (rest : List (ℚ × Nat)) :
    countKeys ((k, c) :: rest) = k :: countKeys rest := rfl

theorem lookupCount_cons (k : ℚ) (c : Nat) (rest : List (ℚ × Nat)) (j : ℚ) :
    lookupCount ((k, c) :: rest) j = if k = j then c else lookupCount rest j := by
  by_cases h : k = j
  · subst h; simp [lookupCount, List.find?]
  · have hb : (k == j) = false := beq_eq_false_iff_ne.mpr h
    simp [lookupCount, List.find?, hb, h]

theorem bumpCount_lookup (acc : List (ℚ × Nat)) (id j : ℚ) :
    lookupCount (bumpCount acc id) j =
      if j = id then lookupCount acc j + 1 else lookupCount acc j := by
  induction acc with
  | nil =>
    by_cases h : j = id
    · subst h; simp [bumpCount, lookupCount_cons, lookupCount]
    · simp [bumpCount, lookupCount_cons, Ne.symm h, h, lookupCount]
  | cons kv rest ih =>
    obtain ⟨k, c⟩ := kv
    by_cases hk : k = id
    · subst hk
      by_cases hj : j = k
      · subst hj; simp [bumpCount, lookupCount_cons]
      · simp [bumpCount, lookupCount_cons, Ne.symm hj, hj]
    · have h1 : bumpCount ((k, c) :: rest) id = (k, c) :: bumpCount rest id := by
        simp [bumpCount, hk]
      by_cases hkj : k = j
      · subst hkj
        have hj : ¬(k = id) := hk
        rw [h1, lookupCount_cons, lookupCount_cons]
        simp [hj]
      · rw [h1, lookupCount_cons, if_neg hkj, lookupCount_cons, if_neg hkj, ih]

theorem bumpCount_keys (acc : List (ℚ × Nat)) (id : ℚ) :
    countKeys (bumpCount acc id) =
      if id ∈ countKeys acc then countKeys acc else countKeys acc ++ [id] := by
  induction acc with
  | nil => simp [bumpCount, countKeys]
  | cons kv rest ih =>
    obtain ⟨k, c⟩ := kv
    by_cases hk : k = id
    · subst hk
      have h1 : bumpCount ((k, c) :: rest) k = (k, c + 1) :: rest := by
        simp [bumpCount]
      rw [h1, countKeys_cons, countKeys_cons,
        if_pos (List.mem_cons_self k (countKeys rest))]
    · have h1 : bumpCount ((k, c) :: rest) id = (k, c) :: bumpCount rest id := by
        simp [bumpCount, hk]
      rw [h1, countKeys_cons, ih, countKeys_cons]
      have hiff : id ∈ k :: countKeys rest ↔ id ∈ countKeys rest := by
        constructor
        · intro h
          rcases List.mem_cons.mp h with h | h
          · exact absurd h.symm hk
          · exact h
        · exact List.mem_cons_of_mem k
      by_cases hmem : id ∈ countKeys rest
      · rw [if_pos hmem, if_pos (hiff.mpr hmem)]
      · rw [if_neg hmem, if_neg (fun h => hmem (hiff.mp h)), List.cons_append]

theorem bumpCount_keys_nodup {acc : List (ℚ × Nat)} (id : ℚ)
    (h : (countKeys acc).Nodup) : (countKeys (bumpCount acc id)).Nodup := by
  rw [bumpCount_keys]
  split
  · exact h
  · rename_i hni
    rw [List.nodup_append]
    exact ⟨h, List.nodup_singleton id, by simpa using fun hmem => hni hmem⟩

theorem bumpCount_ne_nil (acc : List (ℚ × Nat)) (id : ℚ) : bumpCount acc id ≠ [] := by
  cases acc with
  | nil => simp [bumpCount]
  | cons kv rest =>
    obtain ⟨k, c⟩ := kv
    by_cases hk : k = id <;> simp [bumpCount, hk]

theorem countStep_keys_nodup (actors : ActorMap) {acc : List (ℚ × Nat)}
    (e : CastEvent) (h : (countKeys acc).Nodup) :
    (countKeys (countStep actors acc e)).Nodup := by
  unfold countStep
  cases e.sourceID with
  | none => exact h
  | some s =>
    by_cases he : isEnemyCandidate (actors.byId s) = true
    · simpa [he] using bumpCount_keys_nodup s h
    · simp only [Bool.not_eq_true] at he
      simpa [he] using h

theorem countsFold_keys_nodup (events : List CastEvent) (actors : ActorMap) :
    (countKeys (countsFold events actors)).Nodup := by
  suffices h : ∀ (acc : List (ℚ × Nat)), (countKeys acc).Nodup →
      (countKeys (events.foldl (countStep actors) acc)).Nodup by
    exact h [] (by simp [countKeys])
  induction events with
  | nil => intro acc hacc; simpa using hacc
  | cons e rest ih =>
    intro acc hacc
    exact ih (countStep actors acc e) (countStep_keys_nodup actors e hacc)

theorem countStep_lookup (actors : ActorMap) (acc : List (ℚ × Nat))
    (e : CastEvent) (j : ℚ) :
    lookupCount (countStep actors acc e) j =
      lookupCount acc j +
        (if e.sourceID == some j && isEnemyCandidate (actors.byId j) then 1 else 0) := by
  unfold countStep
  cases hs : e.sourceID with
  | none => simp
  | some s =>
    by_cases hj : s = j
    · subst hj
      by_cases he : isEnemyCandidate (actors.byId s) = true
      · simp [he, bumpCount_lookup]
      · simp only [Bool.not_eq_true] at he
        simp [he]
    · by_cases he : isEnemyCandidate (actors.byId s) = true
      · simp [he, bumpCount_lookup, Ne.symm hj, hj]
      · simp only [Bool.not_eq_true] at he
        simp [he, hj]

theorem countsFold_lookup (events : List CastEvent) (actors : ActorMap) (j : ℚ) :
    lookupCount (countsFold events actors) j = enemyEventCount events actors j := by
  suffices h : ∀ (acc : List (ℚ × Nat)),
      lookupCount (events.foldl (countStep actors) acc) j =
        lookupCount acc j + enemyEventCount events actors j by
    simpa [lookupCount] using h []
  induction events with
  | nil => intro acc; simp [enemyEventCount]
  | cons e rest ih =>
    intro acc
    rw [List.foldl_cons, ih (countStep actors acc e), countStep_lookup]
    by_cases hp : (e.sourceID == some j && isEnemyCandidate (actors.byId j)) = true
    · simp [enemyEventCount, List.filter_cons, hp]
      omega
    · rw [Bool.not_eq_true] at hp
      simp [enemyEventCount, List.filter_cons, hp]

theorem lookupCount_of_mem_nodup :
    ∀ {l : List (ℚ × Nat)} {k : ℚ} {c : Nat},
      (k, c) ∈ l → (countKeys l).Nodup → lookupCount l k = c
  | [], k, c => by simp
  | (k', c') :: t, k, c => by
    intro hmem hnd
    rw [countKeys_cons, List.nodup_cons] at hnd
    rcases List.mem_cons.mp hmem with heq | hmem'
    · obtain ⟨h1, h2⟩ := Prod.mk.injEq .. ▸ heq
      injection heq with h1 h2
      subst h1; subst h2
      rw [lookupCount_cons, if_pos rfl]
    · have hk : ¬(k' = k) := by
        intro h
        subst h
        exact hnd.1 (by simpa [countKeys] using List.mem_map_of_mem Prod.fst hmem')
      rw [lookupCount_cons, if_neg hk]
      exact lookupCount_of_mem_nodup hmem' hnd.2

theorem lookupCount_le_of_all {l : List (ℚ × Nat)} {m : Nat}
    (h : ∀ p ∈ l, p.2 ≤ m) (j : ℚ) : lookupCount l j ≤ m := by
  unfold lookupCount
  cases hf : l.find? (fun kv => kv.1 == j) with
  | none => exact Nat.zero_le m
  | some kv => exact h kv (List.mem_of_find?_eq_some hf)

theorem pickMaxGo_spec :
    ∀ (l : List (ℚ × Nat)) (b : ℚ × Nat),
      ∃ r, l.foldl pickStep (some b) = some r ∧ (r = b ∨ r ∈ l) ∧ b.2 ≤ r.2 ∧
        ∀ p ∈ l, p.2 ≤ r.2
  | [], b => ⟨b, rfl, Or.inl rfl, le_rfl, by simp⟩
  | p :: t, b => by
    by_cases h : p.2 > b.2
    · obtain ⟨r, hr, hmem, hle, hall⟩ := pickMaxGo_spec t p
      refine ⟨r, ?_, ?_, ?_, ?_⟩
      · simpa [pickStep, h] using hr
      · rcases hmem with rfl | hmem
        · exact Or.inr (List.mem_cons_self r t)
        · exact Or.inr (List.mem_cons_of_mem p hmem)
      · exact le_trans (Nat.le_of_lt h) hle
      · intro q hq
        rcases List.mem_cons.mp hq with rfl | hq
        · exact hle
        · exact hall q hq
    · obtain ⟨r, hr, hmem, hle, hall⟩ := pickMaxGo_spec t b
      refine ⟨r, ?_, ?_, ?_, ?_⟩
      · simpa [pickStep, h] using hr
      · rcases hmem with rfl | hmem
        · exact Or.inl rfl
        · exact Or.inr (List.mem_cons_of_mem p hmem)
      · exact hle
      · intro q hq
        rcases List.mem_cons.mp hq with rfl | hq
        · exact le_trans (Nat.le_of_not_lt h) hle
        · exact hall q hq

theorem pickMaxCount_none_iff (l : List (ℚ × Nat)) :
    pickMaxCount l = none ↔ l = [] := by
  cases l with
  | nil => simp [pickMaxCount]
  | cons p t =>
    obtain ⟨r, hr, _, _, _⟩ := pickMaxGo_spec t p
    simp [pickMaxCount, List.foldl_cons, pickStep, hr]

theorem pickMaxCount_spec {l : List (ℚ × Nat)} {r : ℚ × Nat}
    (h : pickMaxCount l = some r) : r ∈ l ∧ ∀ p ∈ l, p.2 ≤ r.2 := by
  cases l with
  | nil => simp [pickMaxCount] at h
  | cons p t =>
    obtain ⟨r', hr', hmem, hle, hall⟩ := pickMaxGo_spec t p
    have : r' = r := by
      have := h
      rw [pickMaxCount, List.foldl_cons] at this
      simp only [pickStep] at this
      rw [hr'] at this
      injection this
    subst this
    constructor
    · rcases hmem with rfl | hmem
      · exact List.mem_cons_self r' t
      · exact List.mem_cons_of_mem p hmem
    · intro q hq
      rcases List.mem_cons.mp hq with rfl | hq
      · exact hle
      · exact hall q hq

theorem countsFold_eq_nil_iff (events : List CastEvent) (actors : ActorMap) :
    countsFold events actors = [] ↔ qualifyingEvents events actors = [] := by
  suffices h : ∀ (acc : List (ℚ × Nat)),
      events.foldl (countStep actors) acc = [] ↔
        acc = [] ∧ qualifyingEvents events actors = [] by
    simpa [countsFold] using h []
  induction events with
  | nil => intro acc; simp [qualifyingEvents]
  | cons e rest ih =>
    intro acc
    rw [List.foldl_cons, ih (countStep actors acc e)]
    unfold countStep
    cases hs : e.sourceID with
    | none => simp [qualifyingEvents, List.filter_cons, hs]
    | some s =>
      by_cases he : isEnemyCandidate (actors.byId s) = true
      · simp [qualifyingEvents, List.filter_cons, hs, he, bumpCount_ne_nil]
      · simp only [Bool.not_eq_true] at he
        simp [qualifyingEvents, List.filter_cons, hs, he]

/-- C9: `inferBossActorId` counts events per non-player, non-pet source actor
and returns an actor id with the maximal event count (`none` exactly when no
enemy-candidate source event exists); in the concrete instance with counts 5
and 12, the actor with 12 events is selected. -/
theorem C9_infer_boss :
    (∀ (events : List CastEvent) (actors : ActorMap) (id : ℚ),
        inferBossActorId events actors = some id →
        ∀ j, enemyEventCount events actors j ≤ enemyEventCount events actors id) ∧
    (∀ (events : List CastEvent) (actors : ActorMap),
        inferBossActorId events actors = none ↔
          qualifyingEvents events actors = []) ∧
    inferBossActorId c9Events c9Actors = some 20 ∧
    enemyEventCount c9Events c9Actors 10 = 5 ∧
    enemyEventCount c9Events c9Actors 20 = 12 := by
  refine ⟨?_, ?_, by decide, by decide, by decide⟩
  · intro events actors id h
    rw [inferBossActorId, Option.map_eq_some'] at h
    obtain ⟨r, hr, hr1⟩ := h
    obtain ⟨hmem, hall⟩ := pickMaxCount_spec hr
    have hlook : lookupCount (countsFold events actors) r.1 = r.2 :=
      lookupCount_of_mem_nodup (by exact hmem) (countsFold_keys_nodup events actors)
    intro j
    have h1 : enemyEventCount events actors j ≤ r.2 := by
      rw [← countsFold_lookup]
      exact lookupCount_le_of_all hall j
    have h2 : enemyEventCount events actors id = r.2 := by
      rw [← countsFold_lookup, ← hr1, hlook]
    omega
  · intro events actors
    rw [inferBossActorId, Option.map_eq_none', pickMaxCount_none_iff,
      countsFold_eq_nil_iff]

theorem C9_infer_boss_witness :
    enemyEventCount c9Events c9Actors 10 ≤ enemyEventCount c9Events c9Actors 20 :=
  C9_infer_boss.1 c9Events c9Actors 20 (by decide) 10

/-- C10: an event whose `sourceID` has no entry in the actor map is treated as
an enemy candidate, so an actor id entirely absent from the report's master
data (id 99) is counted and selected as the boss over a known NPC with fewer
events, while the player's 20 events are ignored. -/
theorem C10_unknown_actor_is_enemy_candidate :
    isEnemyCandidate none = true ∧
    c10Actors.byId 99 = none ∧
    inferBossActorId c10Events c10Actors = some 99 ∧
    enemyEventCount c10Events c10Actors 99 = 3 := by
  refine ⟨rfl, by decide, by decide, by decide⟩

/-! ## Comparator lemmas for `pickFight` -/
theorem bestFightLe_refl (f : Fight) : bestFightLe f f = true := by
  simp [bestFightLe, bestCmp]

/-- The `best` comparator is the lexicographic order on (kill, difficulty,
duration, start time), all descending. -/
theorem bestFightLe_iff (a b : Fight) :
    bestFightLe a b = true ↔
      (boolNum b.kill < boolNum a.kill ∨ (boolNum b.kill = boolNum a.kill ∧
        (b.difficulty.getD 0 < a.difficulty.getD 0 ∨
          (b.difficulty.getD 0 = a.difficulty.getD 0 ∧
            (duration b < duration a ∨ (duration b = duration a ∧
              b.startTime ≤ a.startTime)))))) := by
  simp only [bestFightLe, decide_eq_true_eq, bestCmp]
  by_cases h1 : boolNum b.kill - boolNum a.kill = 0
  · rw [if_neg (not_not_intro h1)]
    have e1 : boolNum b.kill = boolNum a.kill := sub_eq_zero.mp h1
    rw [e1]
    simp only [lt_irrefl, false_or, true_and]
    by_cases h2 : b.difficulty.getD 0 - a.difficulty.getD 0 = 0
    · rw [if_neg (not_not_intro h2)]
      have e2 : b.difficulty.getD 0 = a.difficulty.getD 0 := sub_eq_zero.mp h2
      rw [e2]
      simp only [lt_irrefl, false_or, true_and]
      by_cases h3 : duration b - duration a = 0
      · rw [if_neg (not_not_intro h3)]
        have e3 : duration b = duration a := sub_eq_zero.mp h3
        rw [e3]
        simp only [lt_irrefl, false_or, true_and]
        exact sub_nonpos
      · rw [if_pos h3]
        constructor
        · intro h
          exact Or.inl (lt_of_le_of_ne (sub_nonpos.mp h)
            (fun he => h3 (sub_eq_zero_of_eq he)))
        · rintro (h | ⟨he, -⟩)
          · exact sub_nonpos.mpr h.le
          · exact absurd (sub_eq_zero_of_eq he) h3
    · rw [if_pos h2]
      constructor
      · intro h
        exact Or.inl (lt_of_le_of_ne (sub_nonpos.mp h)
          (fun he => h2 (sub_eq_zero_of_eq he)))
      · rintro (h | ⟨he, -⟩)
        · exact sub_nonpos.mpr h.le
        · exact absurd (sub_eq_zero_of_eq he) h2
  · rw [if_pos h1]
    constructor
    · intro h
      exact Or.inl (lt_of_le_of_ne (sub_nonpos.mp h)
        (fun he => h1 (sub_eq_zero_of_eq he)))
    · rintro (h | ⟨he, -⟩)
      · exact sub_nonpos.mpr h.le
      · exact absurd (sub_eq_zero_of_eq he) h1

theorem bestFightLe_trans (a b c : Fight) (h1 : bestFightLe a b = true)
    (h2 : bestFightLe b c = true) : bestFightLe a c = true := by
  rw [bestFightLe_iff] at h1 h2 ⊢
  rcases h1 with p1 | ⟨e1, h1⟩
  · rcases h2 with q1 | ⟨f1, h2⟩
    · exact Or.inl (by linarith)
    · exact Or.inl (by linarith)
  · rcases h2 with q1 | ⟨f1, h2⟩
    · exact Or.inl (by linarith)
    · refine Or.inr ⟨by linarith, ?_⟩
      rcases h1 with p2 | ⟨e2, h1⟩
      · rcases h2 with q2 | ⟨f2, h2⟩
        · exact Or.inl (by linarith)
        · exact Or.inl (by linarith)
      · rcases h2 with q2 | ⟨f2, h2⟩
        · exact Or.inl (by linarith)
        · refine Or.inr ⟨by linarith, ?_⟩
          rcases h1 with p3 | ⟨e3, h1⟩
          · rcases h2 with q3 | ⟨f3, h2⟩
            · exact Or.inl (by linarith)
            · exact Or.inl (by linarith)
          · rcases h2 with q3 | ⟨f3, h2⟩
            · exact Or.inl (by linarith)
            · exact Or.inr ⟨by linarith, by linarith⟩

theorem bestFightLe_total (a b : Fight) :
    (bestFightLe a b || bestFightLe b a) = true := by
  simp only [Bool.or_eq_true, bestFightLe_iff]
  rcases lt_trichotomy (boolNum b.kill) (boolNum a.kill) with h1 | h1 | h1
  · exact Or.inl (Or.inl h1)
  · rcases lt_trichotomy (b.difficulty.getD 0) (a.difficulty.getD 0) with h2 | h2 | h2
    · exact Or.inl (Or.inr ⟨h1, Or.inl h2⟩)
    · rcases lt_trichotomy (duration b) (duration a) with h3 | h3 | h3
      · exact Or.inl (Or.inr ⟨h1, Or.inr ⟨h2, Or.inl h3⟩⟩)
      · rcases le_total b.startTime a.startTime with h4 | h4
        · exact Or.inl (Or.inr ⟨h1, Or.inr ⟨h2, Or.inr ⟨h3, h4⟩⟩⟩)
        · exact Or.inr (Or.inr ⟨h1.symm, Or.inr ⟨h2.symm, Or.inr ⟨h3.symm, h4⟩⟩⟩)
      · exact Or.inr (Or.inr ⟨h1.symm, Or.inr ⟨h2.symm, Or.inl h3⟩⟩)
    · exact Or.inr (Or.inr ⟨h1.symm, Or.inl h2⟩)
  · exact Or.inr (Or.inl h1)

theorem startLe_trans (a b c : Fight) (h1 : startLe a b = true)
    (h2 : startLe b c = true) : startLe a c = true := by
  simp only [startLe, decide_eq_true_eq] at *
  linarith

theorem startLe_total (a b : Fight) : (startLe a b || startLe b a) = true := by
  simp only [Bool.or_eq_true, startLe, decide_eq_true_eq]
  exact le_total a.startTime b.startTime

theorem selFightData_toSelectedFight (rc : String) (f : Fight) (r : String) :
    selFightData (toSelectedFight rc f r) = f := rfl

theorem withDifficultyPriority_subset {l : List Fight} {d : Option ℚ} {f : Fight}
    (hf : f ∈ withDifficultyPriority l d) : f ∈ l := by
  unfold withDifficultyPriority at hf
  cases d with
  | none => exact hf
  | some dd =>
    simp only at hf
    split at hf
    · exact List.mem_of_mem_filter hf
    · exact hf

theorem killNarrow_all_kill {fights : List Fight}
    (h : ∃ f ∈ fights, f.kill = true) : ∀ f ∈ killNarrow fights, f.kill = true := by
  obtain ⟨g, hg, hgk⟩ := h
  have hmem : g ∈ fights.filter (·.kill) := List.mem_filter.mpr ⟨hg, hgk⟩
  have hpos : 0 < (fights.filter (·.kill)).length :=
    List.length_pos.mpr (fun hnil => by simp [hnil] at hmem)
  intro f hf
  unfold killNarrow at hf
  rw [if_pos hpos] at hf
  exact (List.mem_filter.mp hf).2

theorem candidatesAfterNarrow_subset {fights : List Fight} {o : PickFightOptions}
    {cands : List Fight} (h : candidatesAfterNarrow fights o = .ok cands) :
    ∀ f ∈ cands, f ∈ baseCandidates fights o := by
  unfold candidatesAfterNarrow at h
  intro f hf
  cases hb : parseByBoss o.strategy with
  | none =>
    rw [hb] at h
    injection h with h
    subst h
    exact withDifficultyPriority_subset hf
  | some b =>
    rw [hb] at h
    simp only at h
    split at h
    · exact absurd h (by simp)
    · injection h with h
      subst h
      exact List.mem_of_mem_filter (withDifficultyPriority_subset hf)

theorem pickFightStrategy_mem {cands : List Fight} {o : PickFightOptions}
    {sel : SelectedFightMeta} (h : pickFightStrategy cands o = .ok sel) :
    ∃ f, f ∈ cands ∧ selFightData sel = f := by
  unfold pickFightStrategy at h
  split_ifs at h
  · cases hg : (stableSort startLe (cands.filter (·.kill))).getLast? with
    | none => rw [hg] at h; exact absurd h (by simp)
    | some f =>
      rw [hg] at h
      injection h with h
      subst h
      exact ⟨f, List.mem_of_mem_filter
        (mem_stableSort.mp (mem_of_getLast?_eq_some hg)), rfl⟩
  · cases hg : (stableSort startLe (cands.filter (·.kill))).head? with
    | none => rw [hg] at h; exact absurd h (by simp)
    | some f =>
      rw [hg] at h
      injection h with h
      subst h
      exact ⟨f, List.mem_of_mem_filter
        (mem_stableSort.mp (mem_of_head?_eq_some hg)), rfl⟩
  · cases hg : (stableSort durGe cands).head? with
    | none => rw [hg] at h; exact absurd h (by simp)
    | some f =>
      rw [hg] at h
      injection h with h
      subst h
      exact ⟨f, mem_stableSort.mp (mem_of_head?_eq_some hg), rfl⟩
  · cases hg : (stableSort bestFightLe cands).head? with
    | none => rw [hg] at h; exact absurd h (by simp)
    | some f =>
      rw [hg] at h
      injection h with h
      subst h
      exact ⟨f, mem_stableSort.mp (mem_of_head?_eq_some hg), rfl⟩

theorem pickFight_ok_strategy {fights : List Fight} {o : PickFightOptions}
    {sel : SelectedFightMeta} (hdbg : o.debugFightID = none)
    (h : pickFight fights o = .ok sel) :
    ∃ cands, candidatesAfterNarrow fights o = .ok cands ∧
      pickFightStrategy cands o = .ok sel := by
  unfold pickFight at h
  by_cases hlen : fights.length = 0
  · rw [if_pos hlen] at h
    exact absurd h (by simp)
  · rw [if_neg hlen, hdbg] at h
    cases hc : candidatesAfterNarrow fights o with
    | error e => rw [hc] at h; exact absurd h (by simp)
    | ok cands => rw [hc] at h; exact ⟨cands, rfl, h⟩

/-! ## C6: `onlyKill` narrowing -/
/-- C6: with `onlyKill = true`, no explicit override fight id and at least one
kill in a non-empty fight list, any fight `pickFight` returns is a kill; and
the kill narrowing itself never produces an empty candidate set. -/
theorem C6_onlyKill :
    (∀ (fights : List Fight) (o : PickFightOptions) (sel : SelectedFightMeta),
        o.debugFightID = none → o.onlyKill = true →
        (∃ f ∈ fights, f.kill = true) →
        pickFight fights o = .ok sel → sel.kill = true) ∧
    (∀ fights : List Fight, fights ≠ [] → killNarrow fights ≠ []) := by
  constructor
  · intro fights o sel hdbg hok hkill hsel
    obtain ⟨cands, hc, hstrat⟩ := pickFight_ok_strategy hdbg hsel
    obtain ⟨f, hf, hdata⟩ := pickFightStrategy_mem hstrat
    have hbase : f ∈ baseCandidates fights o := candidatesAfterNarrow_subset hc f hf
    rw [baseCandidates, hok, if_pos rfl] at hbase
    have hfk : f.kill = true := killNarrow_all_kill hkill f hbase
    have hk : sel.kill = (selFightData sel).kill := rfl
    rw [hk, hdata, hfk]
  · intro fights hne
    by_cases hpos : 0 < (fights.filter (·.kill)).length
    · simp [killNarrow, hpos, List.ne_nil_of_length_pos hpos]
    · simp [killNarrow, hpos, hne]

theorem pickFight_best_threeFights :
    pickFight threeFights bestOpts = .ok bestSelected := by
  have hpb : parseByBoss "best" = none := by decide
  norm_num [pickFight, threeFights, bestOpts, bestSelected, candidatesAfterNarrow,
    baseCandidates, hpb, killNarrow, withDifficultyPriority, pickFightStrategy,
    stableSort, insertSorted, bestFightLe, bestCmp, boolNum, duration,
    toSelectedFight, (by decide : ¬("best" = "lastKill")),
    (by decide : ¬("best" = "firstKill")), (by decide : ¬("best" = "longest")),
    (by decide : "strategy=" ++ "best" = "strategy=best")]

theorem pickFight_lastKill_threeFights :
    pickFight threeFights lastKillOpts =
      .ok { bestSelected with reason := "strategy=lastKill" } := by
  have hpb : parseByBoss "lastKill" = none := by decide
  norm_num [pickFight, threeFights, lastKillOpts, bestSelected, candidatesAfterNarrow,
    baseCandidates, hpb, killNarrow, withDifficultyPriority, pickFightStrategy,
    stableSort, insertSorted, startLe, duration, toSelectedFight]

theorem C6_onlyKill_witness :
    bestSelected.kill = true ∧ killNarrow threeFights ≠ [] :=
  ⟨C6_onlyKill.1 threeFights bestOpts bestSelected rfl rfl
      ⟨threeFights[1], by decide, rfl⟩ pickFight_best_threeFights,
    C6_onlyKill.2 threeFights (by decide)⟩

/-! ## C7: strategy `best` ranks by the composite comparator -/
/-- C7: with strategy `best` (and no override id), the returned fight is a top
element of the narrowed candidate list under the composite comparator — kill
descending, then difficulty descending, then duration descending, then start
time descending (see `bestFightLe_iff`); over the three test fights with
`onlyKill=true`, strategy `best` selects fight id 3, and strategy `lastKill`
also selects fight id 3. -/
theorem C7_best_comparator :
    (∀ (fights : List Fight) (o : PickFightOptions) (cands : List Fight)
        (sel : SelectedFightMeta),
        o.strategy = "best" → o.debugFightID = none →
        candidatesAfterNarrow fights o = .ok cands →
        pickFight fights o = .ok sel →
        ∀ g ∈ cands, bestFightLe (selFightData sel) g = true) ∧
    pickFight threeFights bestOpts = .ok bestSelected ∧ bestSelected.fightID = 3 ∧
    pickFight threeFights lastKillOpts =
      .ok { bestSelected with reason := "strategy=lastKill" } := by
  refine ⟨?_, pickFight_best_threeFights, rfl, pickFight_lastKill_threeFights⟩
  intro fights o cands sel hstrat hdbg hc hsel
  obtain ⟨cands', hc', hstrats⟩ := pickFight_ok_strategy hdbg hsel
  rw [hc] at hc'
  injection hc' with hc'
  subst hc'
  unfold pickFightStrategy at hstrats
  rw [hstrat] at hstrats
  rw [if_neg (by decide : ¬("best" = "lastKill")),
    if_neg (by decide : ¬("best" = "firstKill")),
    if_neg (by decide : ¬("best" = "longest")),
    if_pos (by simp)] at hstrats
  cases hsort : stableSort bestFightLe cands with
  | nil => rw [hsort] at hstrats; exact absurd hstrats (by simp)
  | cons f tail =>
    rw [hsort] at hstrats
    simp only [List.head?] at hstrats
    injection hstrats with hstrats
    subst hstrats
    intro g hg
    rw [selFightData_toSelectedFight]
    have hpair := pairwise_stableSort bestFightLe_trans bestFightLe_total cands
    rw [hsort, List.pairwise_cons] at hpair
    have hmem : g ∈ f :: tail := by
      rw [← hsort]
      exact mem_stableSort.mpr hg
    rcases List.mem_cons.mp hmem with rfl | hmem
    · exact bestFightLe_refl g
    · exact hpair.1 g hmem

theorem C7_best_comparator_witness :
    bestFightLe (selFightData bestSelected) threeFights[1] = true := by
  have h2 : candidatesAfterNarrow threeFights bestOpts =
      .ok [threeFights[1], threeFights[2]] := by
    have hpb : parseByBoss "best" = none := by decide
    norm_num [candidatesAfterNarrow, baseCandidates, hpb, killNarrow,
      withDifficultyPriority, threeFights, bestOpts]
  exact C7_best_comparator.1 threeFights bestOpts _ _ rfl rfl h2
    pickFight_best_threeFights threeFights[1] (by decide)

/-! ## String lemmas for report codes -/
theorem jsIsAlnum_range {c : Char} (h : jsIsAlnum c = true) :
    48 ≤ c.toNat ∧ c.toNat ≤ 122 := by
  simp only [jsIsAlnum, Bool.or_eq_true, Bool.and_eq_true, decide_eq_true_eq] at h
  omega

theorem alnum_not_ws {c : Char} (h : jsIsAlnum c = true) : jsIsWs c = false := by
  have h48 := (jsIsAlnum_range h).1
  have h1 : c ≠ ' ' := fun he => by subst he; exact absurd h48 (by decide)
  have h2 : c ≠ '\t' := fun he => by subst he; exact absurd h48 (by decide)
  have h3 : c ≠ '\n' := fun he => by subst he; exact absurd h48 (by decide)
  have h4 : c ≠ '\r' := fun he => by subst he; exact absurd h48 (by decide)
  simp [jsIsWs, beq_eq_false_iff_ne.mpr h1, beq_eq_false_iff_ne.mpr h2,
    beq_eq_false_iff_ne.mpr h3, beq_eq_false_iff_ne.mpr h4]

theorem dropWhile_eq_self_of_all {α : Type} {p : α → Bool} {l : List α}
    (h : ∀ c ∈ l, p c = false) : l.dropWhile p = l := by
  cases l with
  | nil => rfl
  | cons x t =>
    rw [List.dropWhile_cons, if_neg (by simp [h x (List.mem_cons_self x t)])]

theorem jsTrim_of_alnum {s : String} (h : s.data.all jsIsAlnum = true) :
    jsTrim s = s := by
  have hws : ∀ c ∈ s.data, jsIsWs c = false := fun c hc =>
    alnum_not_ws (List.all_eq_true.mp h c hc)
  unfold jsTrim
  rw [dropWhile_eq_self_of_all hws,
    dropWhile_eq_self_of_all (fun c hc => hws c (List.mem_reverse.mp hc)),
    List.reverse_reverse]

theorem ciCharEq_slash {c : Char} (h : jsIsAlnum c = true) :
    ciCharEq '/' c = false := by
  obtain ⟨h48, h122⟩ := jsIsAlnum_range h
  have h1 : ('/' == c) = false := by
    apply beq_eq_false_iff_ne.mpr
    intro he
    rw [← he] at h48
    exact absurd h48 (by decide)
  have h2 : (lowerNat '/' == lowerNat c) = false := by
    apply beq_eq_false_iff_ne.mpr
    have hl : 48 ≤ lowerNat c := by
      unfold lowerNat
      split <;> omega
    have h47 : lowerNat '/' = 47 := by decide
    omega
  simp [ciCharEq, h1, h2]

theorem findReportsCode_of_alnum : ∀ {l : List Char}, l.all jsIsAlnum = true →
    findReportsCode l = none
  | [] => fun _ => rfl
  | c :: rest => fun h => by
    have hc : jsIsAlnum c = true :=
      List.all_eq_true.mp h c (List.mem_cons_self c rest)
    have hrest : rest.all jsIsAlnum = true := by
      rw [List.all_eq_true] at h ⊢
      exact fun x hx => h x (List.mem_cons_of_mem c hx)
    have hpre : ciPrefixEq "/reports/".data (c :: rest) = false := by
      have hd : "/reports/".data =
          '/' :: ['r', 'e', 'p', 'o', 'r', 't', 's', '/'] := by decide
      rw [hd]
      simp [ciPrefixEq, ciCharEq_slash hc]
    simp only [findReportsCode, hpre, Bool.false_eq_true, if_false]
    exact findReportsCode_of_alnum hrest

theorem findReportsCode_ne_nil : ∀ {l run : List Char},
    findReportsCode l = some run → run ≠ []
  | [], run => by simp [findReportsCode]
  | c :: rest, run => by
    intro h
    simp only [findReportsCode] at h
    split at h
    · split at h
      · exact findReportsCode_ne_nil h
      · rename_i hne
        injection h with h
        subst h
        intro hnil
        rw [hnil] at hne
        exact hne rfl
    · exact findReportsCode_ne_nil h

theorem strictCodeTest_ne_empty {s : String} (h : strictCodeTest s = true) :
    s ≠ "" := by
  intro he
  subst he
  exact absurd h (by decide)

theorem parseReportCodeDirect_ne_empty {raw : RawRow} {s : String}
    (h : parseReportCodeDirect raw = some s) : s ≠ "" := by
  simp only [parseReportCodeDirect] at h
  split at h
  · exact absurd h (by simp)
  · rename_i d hd
    split at h
    · exact absurd h (by simp)
    · rename_i hne
      split at h
      · rename_i run hrun
        injection h with h
        subst h
        intro he
        exact findReportsCode_ne_nil hrun (congrArg String.data he)
      · split at h
        · injection h with h
          subst h
          exact hne
        · exact absurd h (by simp)

theorem parseReportCode_ne_empty {raw : RawRow} {s : String}
    (h : parseReportCode raw = some s) : s ≠ "" := by
  unfold parseReportCode at h
  split at h
  · rename_i r
    split at h
    · rename_i nc hnc
      split at h
      · rename_i hst
        injection h with h
        subst h
        intro he
        rw [he] at hst
        exact absurd hst (by decide)
      · exact parseReportCodeDirect_ne_empty h
    · exact parseReportCodeDirect_ne_empty h
  · exact parseReportCodeDirect_ne_empty h

/-! ## C5: every returned ranking entry has a known report code and fight id -/
theorem normalizeRanking_reportCode {raw : RawRow} {e : RankingEntry}
    (h : normalizeRanking raw = some e) :
    parseReportCode raw = some e.reportCode := by
  unfold normalizeRanking at h
  split at h
  · rename_i rc fid hrc hfid
    injection h with h
    subst h
    exact hrc
  · exact absurd h (by simp)

theorem repairRow_reportCode {cache : String → Option (List Fight)}
    {encounterID : ℚ} {item : RawRow × String} {e : RankingEntry}
    (h : repairRow cache encounterID item = some e) : e.reportCode = item.2 := by
  unfold repairRow at h
  split at h
  · exact absurd h (by simp)
  · split at h
    · exact absurd h (by simp)
    · injection h with h
      subst h
      rfl

theorem firstPassEntries_spec : ∀ rows : List RawRow,
    (∀ e ∈ (firstPassEntries rows).1, ∃ row ∈ rows, normalizeRanking row = some e) ∧
    (∀ item ∈ (firstPassEntries rows).2,
      item.1 ∈ rows ∧ parseReportCode item.1 = some item.2)
  | [] => by simp [firstPassEntries]
  | row :: rest => by
    obtain ⟨ih1, ih2⟩ := firstPassEntries_spec rest
    cases hn : normalizeRanking row with
    | some e0 =>
      have hfp : firstPassEntries (row :: rest) =
          (e0 :: (firstPassEntries rest).1, (firstPassEntries rest).2) := by
        simp [firstPassEntries, hn]
      rw [hfp]
      constructor
      · intro e he
        rcases List.mem_cons.mp he with rfl | he
        · exact ⟨row, List.mem_cons_self row rest, hn⟩
        · obtain ⟨r, hr, hnr⟩ := ih1 e he
          exact ⟨r, List.mem_cons_of_mem row hr, hnr⟩
      · intro item hitem
        obtain ⟨hr, hp⟩ := ih2 item hitem
        exact ⟨List.mem_cons_of_mem row hr, hp⟩
    | none =>
      cases hp : parseReportCode row with
      | none =>
        have hfp : firstPassEntries (row :: rest) = firstPassEntries rest := by
          simp [firstPassEntries, hn, hp]
        rw [hfp]
        refine ⟨fun e he => ?_, fun item hitem => ?_⟩
        · obtain ⟨r, hr, hnr⟩ := ih1 e he
          exact ⟨r, List.mem_cons_of_mem row hr, hnr⟩
        · obtain ⟨hr, hpp⟩ := ih2 item hitem
          exact ⟨List.mem_cons_of_mem row hr, hpp⟩
      | some rc =>
        have hfp : firstPassEntries (row :: rest) =
            ((firstPassEntries rest).1, (row, rc) :: (firstPassEntries rest).2) := by
          simp [firstPassEntries, hn, hp]
        rw [hfp]
        refine ⟨fun e he => ?_, fun item hitem => ?_⟩
        · obtain ⟨r, hr, hnr⟩ := ih1 e he
          exact ⟨r, List.mem_cons_of_mem row hr, hnr⟩
        · rcases List.mem_cons.mp hitem with rfl | hitem
          · exact ⟨List.mem_cons_self row rest, hp⟩
          · obtain ⟨hr, hpp⟩ := ih2 item hitem
            exact ⟨List.mem_cons_of_mem row hr, hpp⟩

theorem resolveRankingRows_spec {rows : List RawRow}
    {cache : String → Option (List Fight)} {encounterID : ℚ} {e : RankingEntry}
    (he : e ∈ resolveRankingRows rows cache encounterID) :
    ∃ row ∈ rows, parseReportCode row = some e.reportCode := by
  unfold resolveRankingRows at he
  rw [List.mem_append] at he
  rcases he with he | he
  · obtain ⟨row, hr, hn⟩ := (firstPassEntries_spec rows).1 e he
    exact ⟨row, hr, normalizeRanking_reportCode hn⟩
  · rw [List.mem_filterMap] at he
    obtain ⟨item, hitem, hrep⟩ := he
    obtain ⟨hrow, hp⟩ := (firstPassEntries_spec rows).2 item hitem
    exact ⟨item.1, hrow, by rw [hp, repairRow_reportCode hrep]⟩

/-- C5: every entry in the rankings list built by `getRankings` (row
resolution, then job filter, rank/score sort and page-size truncation) carries
a known `(reportCode, fightID)` pair: the report code is a non-empty string
obtained by `parseReportCode` from one of the raw rows (and the fight id is a
finite number by construction — the `fightID` field is total). Raw rows for
which neither direct parsing nor repair yields both never contribute an
entry. -/
theorem C5_known_report_and_fight :
    ∀ (rows : List RawRow) (cache : String → Option (List Fight))
      (encounterID : ℚ) (job : Option String) (n : Nat) (e : RankingEntry),
      e ∈ rankingsOutput rows cache encounterID job n →
      e.reportCode ≠ "" ∧ ∃ row ∈ rows, parseReportCode row = some e.reportCode := by
  intro rows cache encounterID job n e he
  have h1 : e ∈ normalizeAndSortRankings (resolveRankingRows rows cache encounterID) job :=
    List.take_subset n _ he
  have h2 : e ∈ resolveRankingRows rows cache encounterID := by
    unfold normalizeAndSortRankings at h1
    exact List.mem_of_mem_filter (mem_stableSort.mp h1)
  obtain ⟨row, hrow, hp⟩ := resolveRankingRows_spec h2
  exact ⟨parseReportCode_ne_empty hp, row, hrow, hp⟩

theorem C5_known_report_and_fight_witness :
    c5Entry.reportCode ≠ "" ∧
      ∃ row ∈ [c5Row], parseReportCode row = some c5Entry.reportCode :=
  C5_known_report_and_fight [c5Row] (fun _ => none) 0 none 10 c5Entry (by decide)

/-- C4 counterexample: `normalizeRanking` is not idempotent. Re-normalizing
the entry produced for `c4Row` yields a different entry: `fastestSec` is lost
(the entry stores it under a field name none of the `metricFields` paths
read) and `highestRdps` is invented from the entry's `amount` field. -/
theorem C4_counterexample :
    normalizeRanking c4Row = some c4Entry ∧
    normalizeRanking (entryToRaw c4Entry) =
      some { c4Entry with highestRdps := some 0, fastestSec := none } ∧
    some { c4Entry with highestRdps := some 0, fastestSec := none } ≠
      some c4Entry := by
  refine ⟨by decide, by decide, by decide⟩

/-- C4 amended: re-normalizing an already-normalized entry whose report code
passes the strict 8+-alphanumeric pattern is accepted and preserves `rank`,
`amount`, `reportCode`, `fightID`, `bestPercent`, `kill` and `medianRdps`,
but rewrites `highestRdps` to the entry's `amount`, drops `fastestSec`, and
loses all character/server/region/class/spec descriptors; a report code
captured from a report URL can be shorter than 8 characters, in which case
re-normalization rejects the entry outright. -/
theorem C4_renormalize_partial (e : RankingEntry)
    (h : strictCodeTest e.reportCode = true) :
    normalizeRanking (entryToRaw e) =
      some { e with highestRdps := some e.amount, fastestSec := none,
                    characterName := none, serverName := none, region := none,
                    className := none, specName := none } := by
  have halnum : e.reportCode.data.all jsIsAlnum = true := by
    simp only [strictCodeTest, Bool.and_eq_true, decide_eq_true_eq] at h
    exact h.2
  have htrim : jsTrim e.reportCode = e.reportCode := jsTrim_of_alnum halnum
  have hfind : findReportsCode e.reportCode.data = none :=
    findReportsCode_of_alnum halnum
  have hpc : parseReportCode (entryToRaw e) = some e.reportCode := by
    simp [parseReportCode, parseReportCodeDirect, entryToRaw, reportObjField,
      reportStrField, htrim, hfind, strictCodeTest_ne_empty h, h]
  have hfid : parseFightId (entryToRaw e) = some e.fightID := by
    simp [parseFightId, entryToRaw]
  have hm : metricFields (entryToRaw e) =
      { bestPercent := e.bestPercent, highestRdps := some e.amount, kill := e.kill,
        fastestSec := none, medianRdps := e.medianRdps } := by
    simp [metricFields, entryToRaw, toSeconds]
  have hcn : rawCharacterName (entryToRaw e) = none := by
    simp [rawCharacterName, entryToRaw]
  have hsn : rawServerName (entryToRaw e) = none := by
    simp [rawServerName, entryToRaw]
  have hrg : rawRegion (entryToRaw e) = none := by
    simp [rawRegion, entryToRaw]
  have hcl : rawClassName (entryToRaw e) = none := by
    simp [rawClassName, entryToRaw]
  have hsp : rawSpecName (entryToRaw e) = none := by
    simp [rawSpecName, entryToRaw]
  have hrank : (entryToRaw e).rank = some e.rank := rfl
  have hamount : (entryToRaw e).amount = some e.amount := rfl
  simp [normalizeRanking, hpc, hfid, hm, hcn, hsn, hrg, hcl, hsp, hrank, hamount]

theorem C4_renormalize_partial_witness :
    normalizeRanking (entryToRaw c4Entry) =
      some { c4Entry with highestRdps := some c4Entry.amount, fastestSec := none,
                          characterName := none, serverName := none, region := none,
                          className := none, specName := none } :=
  C4_renormalize_partial c4Entry (by decide)
